import Mathlib

/-! Toy robot: command interpreter and robot state machine.

A shallow embedding of `toyrobot.cpp`.

* C++ `int` values (`x_`, `y_`, the underlying value of `Direction`) are modelled by `Int`.
  The only place where the 32-bit width is observable without undefined behaviour is the
  range check of `std::stoi`, which is modelled explicitly (`INT_MIN`, `INT_MAX`).
* `enum Direction : int` has a fixed underlying type, so a `Direction` object can hold every
  `int`; `Turn` produces such values with `static_cast`.  A `Direction` is therefore an `Int`,
  and the four enumerators are the constants `North`, `East`, `South`, `West`.
* A `std::string` is modelled by `String`, a `std::vector<std::string>` by `List String`.
* The output stream is the list of the lines written to it, in order.
* Exceptions are modelled by `Except`; a read outside `DirectionNames` (undefined behaviour)
  by `none`.
* The input stream is the list of its lines.  The loops of `Tokenize` and of `main` over the
  stream are not structurally recursive and carry a fuel argument; `tokenizeLoop_eq` and
  `mainRun_eq_mainLoop` show that the fuel they are given is enough.
-/

namespace ToyRobotModel

/-! ## Direction model -/

def North : Int := 0
def East : Int := 90
def South : Int := 180
def West : Int := 270

/-- Distance in degrees between compass points. -/
def CompassPointSeparation : Int := 90

/-- Maximum value for a compass point angle. -/
def CompassPointMax : Int := 360

/-- The static table inside `DirToName`. -/
def DirectionNames : List String := ["NORTH", "EAST", "SOUTH", "WEST"]

/-- `DirToName`: `index = (direction % 360) / 90` with the truncating operators of C++, then
`DirectionNames[index]`; `none` when the index is outside the table. -/
def DirToName (direction : Int) : Option String :=
  let index := (direction.tmod CompassPointMax).tdiv CompassPointSeparation
  if 0 ≤ index then DirectionNames[index.toNat]? else none

/-- The exceptions thrown inside the `try` block of the `PLACE` branch. -/
inductive Exception where
  | invalid_argument
  | out_of_range
  deriving DecidableEq, Repr

/-- `NameToDir`: exact lookup in the four-entry map, `invalid_argument` otherwise. -/
def NameToDir (name : String) : Except Exception Int :=
  if name = "NORTH" then .ok North
  else if name = "EAST" then .ok East
  else if name = "SOUTH" then .ok South
  else if name = "WEST" then .ok West
  else .error .invalid_argument

/-! ## Robot state -/

/-- Toy robot state. -/
structure ToyRobot where
  x_ : Int
  y_ : Int
  facing_ : Int
  deriving DecidableEq, Repr

namespace ToyRobot

/-- `Turn`: `angle = facing_ + (turnAngle % 360)`, and `360 + angle` when `angle < 0`.
Both call sites pass a multiple of 90, so the `assert` holds. -/
def Turn (robot : ToyRobot) (turnAngle : Int) : Int :=
  let angle := robot.facing_ + turnAngle.tmod CompassPointMax
  if angle < 0 then CompassPointMax + angle else angle

/-- `TurnLeft`: `facing_ = Turn(-90)`. -/
def TurnLeft (robot : ToyRobot) : ToyRobot :=
  { robot with facing_ := robot.Turn (-90) }

/-- `TurnRight`: `facing_ = Turn(90)`. -/
def TurnRight (robot : ToyRobot) : ToyRobot :=
  { robot with facing_ := robot.Turn 90 }

/-- `Move`: the state after the `switch`; the returned `previous` is the argument itself.
A facing value that is none of the four enumerators matches no `case`. -/
def Move (robot : ToyRobot) : ToyRobot :=
  if robot.facing_ = North then { robot with y_ := robot.y_ + 1 }
  else if robot.facing_ = East then { robot with x_ := robot.x_ + 1 }
  else if robot.facing_ = South then { robot with y_ := robot.y_ - 1 }
  else if robot.facing_ = West then { robot with x_ := robot.x_ - 1 }
  else robot

/-- `Place`: the state after the three assignments; `previous` is the argument itself. -/
def Place (_robot : ToyRobot) (x y : Int) (dir : Int) : ToyRobot :=
  { x_ := x, y_ := y, facing_ := dir }

end ToyRobot

/-- Decimal text of an `int` as `operator<<` writes it. -/
def showInt (n : Int) : String := toString n

/-- `operator<<` for `ToyRobot`: `x_ , y_ , DirToName(facing_)`. -/
def render (robot : ToyRobot) : Option String :=
  (DirToName robot.facing_).map fun name =>
    showInt robot.x_ ++ "," ++ showInt robot.y_ ++ "," ++ name

/-! ## `std::stoi` -/

def INT_MIN : Int := -2147483648
def INT_MAX : Int := 2147483647

/-- `isspace` in the "C" locale: space, and `\t \n \v \f \r`. -/
def isspace (c : Char) : Bool := decide (c.toNat = 32 ∨ (9 ≤ c.toNat ∧ c.toNat ≤ 13))

/-- `isdigit`. -/
def isdigit (c : Char) : Bool := decide (48 ≤ c.toNat ∧ c.toNat ≤ 57)

/-- Value of a run of decimal digits, most significant first. -/
def digitsValue (ds : List Char) : Nat :=
  ds.foldl (fun acc c => 10 * acc + (c.toNat - 48)) 0

/-- The sign character `strtol` accepts after the white space, and the text after it. -/
def splitSign : List Char → Bool × List Char
  | [] => (false, [])
  | c :: rest =>
    if c = '-' then (true, rest)
    else if c = '+' then (false, rest)
    else (false, c :: rest)

/-- `std::stoi(str)` (base 10, `pos` not requested): `strtol` skips leading white space, takes
an optional sign and the longest run of digits, and ignores what follows; no digit at all is
`invalid_argument`, a value outside `int` is `out_of_range`. -/
def stoi (str : String) : Except Exception Int :=
  let afterSpace := str.toList.dropWhile isspace
  let signed := splitSign afterSpace
  let digits := signed.2.takeWhile isdigit
  if digits = [] then .error .invalid_argument
  else
    let value : Int := if signed.1 then -(digitsValue digits : Int) else (digitsValue digits : Int)
    if value < INT_MIN ∨ INT_MAX < value then .error .out_of_range
    else .ok value

/-! ## Command interpreter (`main`) -/

/-- Table size in units. -/
def TableSize : Int := 5

def OffTableX : Int := -1
def OffTableY : Int := -1

/-- The lambda `OffTable` of `main`. -/
def OffTable (robot : ToyRobot) : Prop :=
  robot.x_ < 0 ∨ robot.x_ ≥ TableSize ∨ robot.y_ < 0 ∨ robot.y_ ≥ TableSize

instance (robot : ToyRobot) : Decidable (OffTable robot) := by
  unfold OffTable; infer_instance

/-- The robot `main` starts with. -/
def initialRobot : ToyRobot := { x_ := OffTableX, y_ := OffTableY, facing_ := North }

/-- The three parses of the `try` block, in source order; the first exception leaves the
block. -/
def parsePlace (a1 a2 a3 : String) : Except Exception (Int × Int × Int) :=
  match stoi a1 with
  | .error e => .error e
  | .ok x =>
    match stoi a2 with
    | .error e => .error e
    | .ok y =>
      match NameToDir a3 with
      | .error e => .error e
      | .ok dir => .ok (x, y, dir)

/-- The `PLACE` branch of the loop body, for the three arguments. -/
def placeCommand (robot : ToyRobot) (a1 a2 a3 : String) : ToyRobot × List String :=
  match parsePlace a1 a2 a3 with
  | .ok (x, y, dir) =>
    let placed := robot.Place x y dir
    (if OffTable placed then robot else placed, [])
  | .error _ => (robot, ["One or more invalid arguments."])

/-- One iteration of the loop of `main` for a non-empty `cmdTokens = command :: args`:
the new robot and the lines written; `none` when the iteration reads outside
`DirectionNames`. -/
def processCommand (robot : ToyRobot) (command : String) (args : List String) :
    Option (ToyRobot × List String) :=
  if OffTable robot ∧ command ≠ "PLACE" then some (robot, [])
  else if args.length = 0 ∧ command = "MOVE" then
    let moved := robot.Move
    some (if OffTable moved then robot else moved, [])
  else if args.length = 0 ∧ command = "LEFT" then some (robot.TurnLeft, [])
  else if args.length = 0 ∧ command = "RIGHT" then some (robot.TurnRight, [])
  else if args.length = 0 ∧ command = "REPORT" then
    (render robot).map fun line => (robot, [line])
  else if args.length = 3 ∧ command = "PLACE" then
    match args with
    | [a1, a2, a3] => some (placeCommand robot a1 a2 a3)
    | _ => none
  else some (robot, ["Unknown command or invalid argument count."])

/-- The loop of `main` over the successive results of `ReadCommand`: an empty token sequence
ends the loop; the result is the final robot and everything written. -/
def mainLoop (robot : ToyRobot) : List (List String) → Option (ToyRobot × List String)
  | [] => some (robot, [])
  | [] :: _ => some (robot, [])
  | (command :: args) :: rest =>
    match processCommand robot command args with
    | none => none
    | some (next, out) =>
      match mainLoop next rest with
      | none => none
      | some (final, later) => some (final, out ++ later)

/-! ## Tokenizer and command reader -/

/-- `std::toupper` in the "C" locale: `a`..`z` become `A`..`Z`, every other character is
kept. -/
def toupper (c : Char) : Char :=
  if 97 ≤ c.toNat ∧ c.toNat ≤ 122 then Char.ofNat (c.toNat - 32) else c

/-- The lambda `Separator` of `Tokenize`: `isspace(c) || c == ','`. -/
def Separator (c : Char) : Bool := isspace c || c == ','

/-- The outer `while` of `Tokenize` with the iterator at the text `ch`: skip the separators,
collect `tok` up to the next separator, push it when it is not empty, and go round again.
Every round on a non-empty text consumes a character, so `fuel` counts the rounds left. -/
def tokenizeLoop : Nat → List Char → List String
  | 0, _ => []
  | fuel + 1, ch =>
    if ch = [] then []
    else
      let afterSkip := ch.dropWhile Separator
      let tok := afterSkip.takeWhile (fun c => !Separator c)
      let rest := afterSkip.dropWhile (fun c => !Separator c)
      if tok.length > 0 then String.mk tok :: tokenizeLoop fuel rest
      else tokenizeLoop fuel rest

/-- `Tokenize`: the line is first changed to upper case with `std::transform`, then cut into
tokens by the loop. -/
def Tokenize (line : String) : List String :=
  let upper := line.toList.map toupper
  tokenizeLoop upper.length upper

/-- The `while (std::getline(input, line))` of `ReadCommand`, the stream being the list of the
lines still unread: the value of `tokens` at the exit, and the lines left in the stream. -/
def readCommandLoop (tokens : List String) : List String → List String × List String
  | [] => (tokens, [])
  | line :: rest =>
    let tokens := Tokenize line
    if tokens ≠ [] then (tokens, rest) else readCommandLoop tokens rest

/-- `ReadCommand`: `tokens` starts empty. -/
def ReadCommand (input : List String) : List String × List String :=
  readCommandLoop [] input

/-- The loop of `main` reading its commands from `input` with `ReadCommand`; each round that
does not end the loop consumes a line, so `fuel` counts the rounds left (`none` when it runs
out, or when a round reads outside `DirectionNames`). -/
def mainRun : Nat → ToyRobot → List String → Option (ToyRobot × List String)
  | 0, _, _ => none
  | fuel + 1, robot, input =>
    match ReadCommand input with
    | ([], _) => some (robot, [])
    | (command :: args, rest) =>
      match processCommand robot command args with
      | none => none
      | some (next, out) =>
        match mainRun fuel next rest with
        | none => none
        | some (final, later) => some (final, out ++ later)

/-- The program on the input lines `input`: final robot and everything written. -/
def mainProgram (input : List String) : Option (ToyRobot × List String) :=
  mainRun (input.length + 1) initialRobot input

/-- Reference tokenizer, written from the specification and not from the code: change the
line to upper case, split it at every separator, keep the pieces that are not empty. -/
def specTokens (line : String) : List String :=
  (((line.toList.map toupper).splitOnP Separator).filter (fun run => !run.isEmpty)).map
    String.mk

/-- A line with every ASCII letter in upper case. -/
def upperLine (line : String) : String := String.mk (line.toList.map toupper)

/-- What every iteration preserves of the facing value: a non-negative multiple of 90. -/
def FacingInv (robot : ToyRobot) : Prop :=
  0 ≤ robot.facing_ ∧ robot.facing_ % 90 = 0

/-- What every iteration preserves: the position is the sentinel or on the table, and the
facing value is not negative. -/
def Inv (robot : ToyRobot) : Prop :=
  ((robot.x_ = -1 ∧ robot.y_ = -1) ∨
    (0 ≤ robot.x_ ∧ robot.x_ < 5 ∧ 0 ≤ robot.y_ ∧ robot.y_ < 5)) ∧ 0 ≤ robot.facing_

/-! ## Auxiliary facts -/

theorem DirToName_isSome_of_nonneg (d : Int) (hd : 0 ≤ d) : (DirToName d).isSome = true := by
  unfold DirToName CompassPointMax CompassPointSeparation
  have h1 : d.tmod 360 = d % 360 := Int.tmod_eq_emod hd (by decide)
  have h2 : (d % 360).tdiv 90 = (d % 360) / 90 :=
    Int.tdiv_eq_ediv (Int.emod_nonneg _ (by decide)) (by decide)
  simp only [h1, h2]
  have hlo : 0 ≤ d % 360 / 90 := by omega
  have hhi : d % 360 / 90 < 4 := by omega
  obtain ⟨n, hn⟩ := Int.eq_ofNat_of_zero_le hlo
  rw [hn] at hhi ⊢
  have hn4 : n < 4 := by omega
  simp only [Int.toNat_ofNat, Int.ofNat_nonneg, if_true]
  interval_cases n <;> simp [DirectionNames]

theorem NameToDir_ok_nonneg (name : String) (d : Int) (h : NameToDir name = .ok d) :
    d = North ∨ d = East ∨ d = South ∨ d = West := by
  unfold NameToDir at h
  split_ifs at h <;> simp_all

theorem parsePlace_ok_facing (a1 a2 a3 : String) (x y : Int) (dir : Int)
    (h : parsePlace a1 a2 a3 = .ok (x, y, dir)) :
    dir = North ∨ dir = East ∨ dir = South ∨ dir = West := by
  unfold parsePlace at h
  split at h
  · simp at h
  · split at h
    · simp at h
    · split at h
      · simp at h
      · rename_i d hd
        simp only [Except.ok.injEq, Prod.mk.injEq] at h
        obtain ⟨-, -, rfl⟩ := h
        exact NameToDir_ok_nonneg _ _ hd

theorem Inv_initialRobot : Inv initialRobot := by
  simp [Inv, initialRobot, OffTableX, OffTableY, North]

theorem offTable_iff (robot : ToyRobot) :
    OffTable robot ↔ ¬ (0 ≤ robot.x_ ∧ robot.x_ < 5 ∧ 0 ≤ robot.y_ ∧ robot.y_ < 5) := by
  unfold OffTable TableSize
  omega

theorem placeCommand_inv (robot : ToyRobot) (a1 a2 a3 : String) (h : Inv robot) :
    Inv (placeCommand robot a1 a2 a3).1 ∧
      (¬ OffTable robot → ¬ OffTable (placeCommand robot a1 a2 a3).1) := by
  unfold placeCommand
  split
  · rename_i x y dir hp
    have hdir := parsePlace_ok_facing _ _ _ _ _ _ hp
    by_cases hoff : OffTable (robot.Place x y dir)
    · simp [hoff, h]
    · simp only [if_neg hoff]
      refine ⟨?_, fun _ => hoff⟩
      rw [offTable_iff] at hoff
      simp only [ToyRobot.Place, not_not] at hoff
      refine ⟨Or.inr hoff, ?_⟩
      simp only [ToyRobot.Place]
      rcases hdir with rfl | rfl | rfl | rfl <;> simp [North, East, South, West]
  · simp [h]

theorem processCommand_inv (robot : ToyRobot) (command : String) (args : List String)
    (h : Inv robot) :
    ∃ next out, processCommand robot command args = some (next, out) ∧ Inv next ∧
      (¬ OffTable robot → ¬ OffTable next) := by
  unfold processCommand
  split_ifs with hg hmove hleft hright hreport hplace
  · exact ⟨robot, [], rfl, h, id⟩
  · by_cases hoff : OffTable robot.Move
    · exact ⟨robot, [], by simp [hoff], h, id⟩
    · refine ⟨robot.Move, [], by simp [hoff], ?_, fun _ => hoff⟩
      have hf : robot.Move.facing_ = robot.facing_ := by
        unfold ToyRobot.Move; split_ifs <;> rfl
      rw [offTable_iff, not_not] at hoff
      exact ⟨Or.inr hoff, hf ▸ h.2⟩
  · refine ⟨robot.TurnLeft, [], rfl, ⟨h.1, ?_⟩, fun hn => ?_⟩
    · have := h.2
      simp only [ToyRobot.TurnLeft, ToyRobot.Turn, CompassPointMax]
      have e : (-90 : Int).tmod 360 = -90 := by decide
      rw [e]; split_ifs <;> omega
    · simpa [OffTable, ToyRobot.TurnLeft] using hn
  · refine ⟨robot.TurnRight, [], rfl, ⟨h.1, ?_⟩, fun hn => ?_⟩
    · have := h.2
      simp only [ToyRobot.TurnRight, ToyRobot.Turn, CompassPointMax]
      have e : (90 : Int).tmod 360 = 90 := by decide
      rw [e]; split_ifs <;> omega
    · simpa [OffTable, ToyRobot.TurnRight] using hn
  · have hs := DirToName_isSome_of_nonneg robot.facing_ h.2
    obtain ⟨name, hname⟩ := Option.isSome_iff_exists.mp hs
    exact ⟨robot, [showInt robot.x_ ++ "," ++ showInt robot.y_ ++ "," ++ name],
      by simp [render, hname], h, id⟩
  · obtain ⟨hlen, -⟩ := hplace
    match args, hlen with
    | [a1, a2, a3], _ =>
      have := placeCommand_inv robot a1 a2 a3 h
      exact ⟨_, _, rfl, this.1, this.2⟩
  · exact ⟨robot, [_], rfl, h, id⟩

theorem mainLoop_inv (cmds : List (List String)) :
    ∀ robot : ToyRobot, Inv robot →
      ∃ final out, mainLoop robot cmds = some (final, out) ∧ Inv final ∧
        (¬ OffTable robot → ¬ OffTable final) := by
  induction cmds with
  | nil => intro robot h; exact ⟨robot, [], rfl, h, id⟩
  | cons c rest ih =>
    intro robot h
    cases c with
    | nil => exact ⟨robot, [], rfl, h, id⟩
    | cons command args =>
      obtain ⟨next, out, hstep, hnext, hon⟩ := processCommand_inv robot command args h
      obtain ⟨final, later, hrun, hfinal, hon2⟩ := ih next hnext
      refine ⟨final, out ++ later, ?_, hfinal, fun hn => hon2 (hon hn)⟩
      simp [mainLoop, hstep, hrun]

/-! ## The gate -/

/-- C1. Gate: for every off-table robot state (x < 0 or x >= 5 or y < 0 or y >= 5) and every
non-empty token sequence `command :: args` whose first token is not "PLACE", whatever the
name and the number of arguments, one iteration leaves the state unchanged and writes
nothing; and for every sequence of such commands run from the initial state (-1,-1,North) the
output is empty and the final state is still (-1,-1,North). -/
theorem gate_discards_until_placed (robot : ToyRobot) (command : String) (args : List String)
    (cmds : List (List String))
    (hoff : robot.x_ < 0 ∨ robot.x_ ≥ 5 ∨ robot.y_ < 0 ∨ robot.y_ ≥ 5)
    (hcmd : command ≠ "PLACE")
    (hall : ∀ c ∈ cmds, c ≠ [] ∧ c.head? ≠ some "PLACE") :
    processCommand robot command args = some (robot, []) ∧
      mainLoop initialRobot cmds = some (initialRobot, []) ∧
      initialRobot = { x_ := -1, y_ := -1, facing_ := North } := by
  refine ⟨?_, ?_, rfl⟩
  · have : OffTable robot := hoff
    simp [processCommand, this, hcmd]
  · induction cmds with
    | nil => rfl
    | cons c rest ih =>
      have hc := hall c (List.mem_cons_self _ _)
      have hrest : ∀ d ∈ rest, d ≠ [] ∧ d.head? ≠ some "PLACE" :=
        fun d hd => hall d (List.mem_cons_of_mem _ hd)
      cases c with
      | nil => exact absurd rfl hc.1
      | cons name rest2 =>
        have hname : name ≠ "PLACE" := by
          intro h; exact hc.2 (by simp [h])
        have hinit : OffTable initialRobot := by decide
        simp [mainLoop, processCommand, hinit, hname, ih hrest]

/-- Witness for C1: `REPORT` on the initial robot, and a run of five gated commands. -/
theorem gate_discards_until_placed_witness :
    processCommand initialRobot "REPORT" [] = some (initialRobot, []) ∧
      mainLoop initialRobot [["MOVE"], ["LEFT"], ["RIGHT"], ["REPORT"], ["JUMP", "1"]]
        = some (initialRobot, []) ∧
      initialRobot = { x_ := -1, y_ := -1, facing_ := North } :=
  gate_discards_until_placed initialRobot "REPORT" []
    [["MOVE"], ["LEFT"], ["RIGHT"], ["REPORT"], ["JUMP", "1"]]
    (by decide) (by decide) (by decide)

/-! ## The position invariant -/

/-- C2. Position invariant: for every finite sequence `cmds` of tokenized commands run from
the initial state (-1,-1,North) with table size 5 and every `k`, the run of the first `k`
commands ends normally in a state whose position is the sentinel (-1,-1) or satisfies
0 <= x < 5 and 0 <= y < 5; and once that state is on the table, every further sequence of
commands `later` run from it ends normally in a state that is on the table. -/
theorem position_invariant (cmds : List (List String)) (k : Nat) :
    ∃ robot out, mainLoop initialRobot (cmds.take k) = some (robot, out) ∧
      ((robot.x_ = -1 ∧ robot.y_ = -1) ∨
        (0 ≤ robot.x_ ∧ robot.x_ < 5 ∧ 0 ≤ robot.y_ ∧ robot.y_ < 5)) ∧
      ((0 ≤ robot.x_ ∧ robot.x_ < 5 ∧ 0 ≤ robot.y_ ∧ robot.y_ < 5) →
        ∀ later : List (List String), ∃ final out2,
          mainLoop robot later = some (final, out2) ∧
          0 ≤ final.x_ ∧ final.x_ < 5 ∧ 0 ≤ final.y_ ∧ final.y_ < 5) := by
  obtain ⟨robot, out, hrun, hinv, -⟩ := mainLoop_inv (cmds.take k) initialRobot Inv_initialRobot
  refine ⟨robot, out, hrun, hinv.1, fun hon later => ?_⟩
  obtain ⟨final, out2, hrun2, -, hon2⟩ := mainLoop_inv later robot hinv
  refine ⟨final, out2, hrun2, ?_⟩
  have h1 : ¬ OffTable robot := by rw [offTable_iff]; exact not_not.mpr hon
  have h2 := hon2 h1
  rw [offTable_iff] at h2
  exact not_not.mp h2

/-! ## MOVE -/

/-- C3. MOVE step: for every on-table state (x, y, d) with d one of North, East, South, West,
`Move` gives the candidate (North: y+1, East: x+1, South: y-1, West: x-1, facing unchanged),
and processing ["MOVE"] writes nothing and yields the candidate when it is on the table and
exactly the state before the move when it is not. -/
theorem move_step (x y d : Int) (hx : 0 ≤ x ∧ x < 5) (hy : 0 ≤ y ∧ y < 5)
    (hd : d = North ∨ d = East ∨ d = South ∨ d = West) :
    (ToyRobot.mk x y d).Move =
        (if d = North then ToyRobot.mk x (y + 1) d
         else if d = East then ToyRobot.mk (x + 1) y d
         else if d = South then ToyRobot.mk x (y - 1) d
         else ToyRobot.mk (x - 1) y d) ∧
      processCommand (ToyRobot.mk x y d) "MOVE" [] =
        some (if 0 ≤ (ToyRobot.mk x y d).Move.x_ ∧ (ToyRobot.mk x y d).Move.x_ < 5 ∧
                0 ≤ (ToyRobot.mk x y d).Move.y_ ∧ (ToyRobot.mk x y d).Move.y_ < 5
              then (ToyRobot.mk x y d).Move else ToyRobot.mk x y d, []) := by
  have hon : ¬ OffTable (ToyRobot.mk x y d) := by
    rw [offTable_iff]; simp [hx, hy]
  constructor
  · rcases hd with rfl | rfl | rfl | rfl <;> simp [ToyRobot.Move, North, East, South, West]
  · simp only [processCommand, hon, false_and, if_false, List.length_nil, true_and, if_true]
    by_cases hm : OffTable (ToyRobot.mk x y d).Move
    · have hm2 := (offTable_iff _).mp hm
      simp [hm, hm2]
    · have hm2 : 0 ≤ (ToyRobot.mk x y d).Move.x_ ∧ (ToyRobot.mk x y d).Move.x_ < 5 ∧
          0 ≤ (ToyRobot.mk x y d).Move.y_ ∧ (ToyRobot.mk x y d).Move.y_ < 5 :=
        not_not.mp (fun h => hm ((offTable_iff _).mpr h))
      simp [hm, hm2]

/-- Witness for C3: a committed move to the east and a move rejected at the southern edge. -/
theorem move_step_witness :
    ((ToyRobot.mk 2 0 South).Move =
        (if South = North then ToyRobot.mk 2 (0 + 1) South
         else if South = East then ToyRobot.mk (2 + 1) 0 South
         else if South = South then ToyRobot.mk 2 (0 - 1) South
         else ToyRobot.mk (2 - 1) 0 South) ∧
      processCommand (ToyRobot.mk 2 0 South) "MOVE" [] =
        some (if 0 ≤ (ToyRobot.mk 2 0 South).Move.x_ ∧ (ToyRobot.mk 2 0 South).Move.x_ < 5 ∧
                0 ≤ (ToyRobot.mk 2 0 South).Move.y_ ∧ (ToyRobot.mk 2 0 South).Move.y_ < 5
              then (ToyRobot.mk 2 0 South).Move else ToyRobot.mk 2 0 South, [])) ∧
      processCommand (ToyRobot.mk 2 0 South) "MOVE" [] = some (ToyRobot.mk 2 0 South, []) ∧
      processCommand (ToyRobot.mk 2 0 East) "MOVE" [] = some (ToyRobot.mk 3 0 East, []) :=
  ⟨move_step 2 0 South (by decide) (by decide) (by decide), by decide, by decide⟩

/-! ## PLACE with arguments that parse -/

theorem isspace_false_of_isdigit (c : Char) (h : isdigit c = true) : isspace c = false := by
  simp only [isdigit, decide_eq_true_eq] at h
  simp only [isspace, decide_eq_false_iff_not]
  omega

theorem splitSign_of_isdigit (c : Char) (rest : List Char) (h : isdigit c = true) :
    splitSign (c :: rest) = (false, c :: rest) := by
  have h1 : c ≠ '-' := by rintro rfl; exact absurd h (by decide)
  have h2 : c ≠ '+' := by rintro rfl; exact absurd h (by decide)
  simp [splitSign, h1, h2]

theorem takeWhile_isdigit_self (ds : List Char) (h : ∀ c ∈ ds, isdigit c = true) :
    ds.takeWhile isdigit = ds := by
  induction ds with
  | nil => rfl
  | cons c rest ih =>
    have hc := h c (List.mem_cons_self _ _)
    simp only [List.takeWhile_cons, hc, if_true]
    rw [ih (fun d hd => h d (List.mem_cons_of_mem _ hd))]

/-- On a token made of an optional sign and a non-empty run of digits, `stoi` returns the
signed value of the digits when it fits an `int`. -/
theorem stoi_literal (sign ds : List Char) (v : Int)
    (hs : sign = [] ∨ sign = ['+'] ∨ sign = ['-'])
    (hne : ds ≠ []) (hdig : ∀ c ∈ ds, isdigit c = true)
    (hv : v = if sign = ['-'] then -(digitsValue ds : Int) else (digitsValue ds : Int))
    (hr : INT_MIN ≤ v ∧ v ≤ INT_MAX) :
    stoi (String.mk (sign ++ ds)) = .ok v := by
  obtain ⟨c, rest, rfl⟩ := List.exists_cons_of_ne_nil hne
  have hc := hdig c (List.mem_cons_self _ _)
  have htake := takeWhile_isdigit_self (c :: rest) hdig
  have hrange : ¬ (v < INT_MIN ∨ INT_MAX < v) := by omega
  unfold stoi
  rcases hs with rfl | rfl | rfl
  · have hdrop : (String.mk ([] ++ c :: rest)).toList.dropWhile isspace = c :: rest := by
      simp [String.toList, List.dropWhile_cons, isspace_false_of_isdigit c hc]
    simp only [hdrop, splitSign_of_isdigit c rest hc, htake]
    simp only [List.nil_eq, reduceCtorEq, if_false] at hv
    simp only [reduceCtorEq, if_false, Bool.false_eq_true, ← hv, hrange]
  · have hsp : isspace '+' = false := by decide
    have hdrop : (String.mk (['+'] ++ c :: rest)).toList.dropWhile isspace = '+' :: c :: rest := by
      simp [String.toList, List.dropWhile_cons, hsp]
    have hsplit : splitSign ('+' :: c :: rest) = (false, c :: rest) := by
      simp [splitSign]
    have hne2 : ¬ (['+'] = ['-']) := by decide
    simp only [hne2, if_false] at hv
    simp only [hdrop, hsplit, htake]
    simp only [reduceCtorEq, if_false, Bool.false_eq_true, ← hv, hrange]
  · have hsp : isspace '-' = false := by decide
    have hdrop : (String.mk (['-'] ++ c :: rest)).toList.dropWhile isspace = '-' :: c :: rest := by
      simp [String.toList, List.dropWhile_cons, hsp]
    have hsplit : splitSign ('-' :: c :: rest) = (true, c :: rest) := by
      simp [splitSign]
    simp only [if_true] at hv
    simp only [hdrop, hsplit, htake]
    simp only [reduceCtorEq, if_false, if_true, ← hv, hrange]

/-- C4, counterexample: a base-10 literal whose value does not fit an `int` makes `stoi`
throw `out_of_range`, and PLACE 2147483648,0,NORTH writes the invalid-arguments line. -/
theorem place_literal_out_of_int_range :
    stoi "2147483648" = .error .out_of_range ∧
      processCommand initialRobot "PLACE" ["2147483648", "0", "NORTH"] =
        some (initialRobot, ["One or more invalid arguments."]) ∧
      processCommand initialRobot "PLACE" ["2147483648", "0", "NORTH"] ≠
        some (initialRobot, []) :=
  ⟨rfl, by decide, by decide⟩

/-- C4, amended. PLACE with valid arguments: for every prior state, every pair of tokens made
of an optional sign (sx, sy) and a non-empty run of decimal digits (dx, dy) whose values x, y
fit a 32-bit `int`, and every direction name f in NORTH, EAST, SOUTH, WEST with enumerator d,
processing ["PLACE", x, y, f] writes nothing; the new state is exactly (x, y, d) when
0 <= x < 5 and 0 <= y < 5 and exactly the prior state otherwise. PLACE 5,5,NORTH from the
initial state followed by REPORT writes nothing at all. -/
theorem place_valid_arguments (robot : ToyRobot) (sx dx sy dy : List Char) (f : String)
    (x y d : Int)
    (hsx : sx = [] ∨ sx = ['+'] ∨ sx = ['-'])
    (hdx : dx ≠ [] ∧ ∀ c ∈ dx, isdigit c = true)
    (hx : x = if sx = ['-'] then -(digitsValue dx : Int) else (digitsValue dx : Int))
    (hsy : sy = [] ∨ sy = ['+'] ∨ sy = ['-'])
    (hdy : dy ≠ [] ∧ ∀ c ∈ dy, isdigit c = true)
    (hy : y = if sy = ['-'] then -(digitsValue dy : Int) else (digitsValue dy : Int))
    (hxr : -2147483648 ≤ x ∧ x ≤ 2147483647) (hyr : -2147483648 ≤ y ∧ y ≤ 2147483647)
    (hf : (f = "NORTH" ∧ d = North) ∨ (f = "EAST" ∧ d = East) ∨
      (f = "SOUTH" ∧ d = South) ∨ (f = "WEST" ∧ d = West)) :
    processCommand robot "PLACE" [String.mk (sx ++ dx), String.mk (sy ++ dy), f] =
        some (if 0 ≤ x ∧ x < 5 ∧ 0 ≤ y ∧ y < 5 then ToyRobot.mk x y d else robot, []) ∧
      mainLoop initialRobot [["PLACE", "5", "5", "NORTH"], ["REPORT"]] =
        some (initialRobot, []) := by
  refine ⟨?_, by decide⟩
  have h1 := stoi_literal sx dx x hsx hdx.1 hdx.2 hx hxr
  have h2 := stoi_literal sy dy y hsy hdy.1 hdy.2 hy hyr
  have h3 : NameToDir f = .ok d := by
    rcases hf with ⟨rfl, rfl⟩ | ⟨rfl, rfl⟩ | ⟨rfl, rfl⟩ | ⟨rfl, rfl⟩ <;> rfl
  have hparse : parsePlace (String.mk (sx ++ dx)) (String.mk (sy ++ dy)) f = .ok (x, y, d) := by
    simp [parsePlace, h1, h2, h3]
  by_cases hon : 0 ≤ x ∧ x < 5 ∧ 0 ≤ y ∧ y < 5
  · have hoff : ¬ OffTable (robot.Place x y d) := by
      rw [offTable_iff]; exact not_not.mpr hon
    simp [processCommand, placeCommand, hparse, hoff, hon]
    rfl
  · have hoff : OffTable (robot.Place x y d) := by
      rw [offTable_iff]; exact hon
    simp [processCommand, placeCommand, hparse, hoff, hon]

/-- Witness for C4: PLACE +3,04,WEST on a placed robot, and PLACE -1,2,EAST rejected. -/
theorem place_valid_arguments_witness :
    (processCommand (ToyRobot.mk 1 1 North) "PLACE"
        [String.mk (['+'] ++ ['3']), String.mk ([] ++ ['0', '4']), "WEST"] =
        some (if (0 : Int) ≤ 3 ∧ (3 : Int) < 5 ∧ (0 : Int) ≤ 4 ∧ (4 : Int) < 5
          then ToyRobot.mk 3 4 West else ToyRobot.mk 1 1 North, []) ∧
      mainLoop initialRobot [["PLACE", "5", "5", "NORTH"], ["REPORT"]] =
        some (initialRobot, [])) ∧
      processCommand (ToyRobot.mk 1 1 North) "PLACE" ["+3", "04", "WEST"] =
        some (ToyRobot.mk 3 4 West, []) ∧
      processCommand (ToyRobot.mk 1 1 North) "PLACE" ["-1", "2", "EAST"] =
        some (ToyRobot.mk 1 1 North, []) :=
  ⟨place_valid_arguments (ToyRobot.mk 1 1 North) ['+'] ['3'] [] ['0', '4'] "WEST" 3 4 West
      (by decide) (by decide) (by decide) (by decide) (by decide) (by decide)
      (by decide) (by decide) (by decide),
    by decide, by decide⟩

/-! ## PLACE with arguments that do not parse -/

/-- C5. PLACE with an invalid direction: for every prior state and every token sequence
["PLACE", a1, a2, a3] whose third argument is none of NORTH, EAST, SOUTH, WEST, whatever a1
and a2 are, the iteration writes exactly the one line "One or more invalid arguments." and
leaves the state unchanged. -/
theorem place_invalid_direction (robot : ToyRobot) (a1 a2 a3 : String)
    (h3 : a3 ≠ "NORTH" ∧ a3 ≠ "EAST" ∧ a3 ≠ "SOUTH" ∧ a3 ≠ "WEST") :
    processCommand robot "PLACE" [a1, a2, a3] =
      some (robot, ["One or more invalid arguments."]) := by
  have hdir : NameToDir a3 = .error .invalid_argument := by
    simp [NameToDir, h3.1, h3.2.1, h3.2.2.1, h3.2.2.2]
  have hparse : ∃ e, parsePlace a1 a2 a3 = .error e := by
    unfold parsePlace
    cases stoi a1 with
    | error e => exact ⟨e, rfl⟩
    | ok x =>
      cases stoi a2 with
      | error e => exact ⟨e, rfl⟩
      | ok y => exact ⟨.invalid_argument, by simp [hdir]⟩
  obtain ⟨e, he⟩ := hparse
  simp [processCommand, placeCommand, he]

/-- Witness for C5: PLACE 1,1,NORTHX on a placed robot. -/
theorem place_invalid_direction_witness :
    processCommand (ToyRobot.mk 3 4 East) "PLACE" ["1", "1", "NORTHX"] =
      some (ToyRobot.mk 3 4 East, ["One or more invalid arguments."]) :=
  place_invalid_direction (ToyRobot.mk 3 4 East) "1" "1" "NORTHX" (by decide)

/-- C6, the code at the failing input: `stoi` stops at the first character that is not a
digit and does not look at what follows, so PLACE 1X,2.5,NORTH and PLACE 0X10,2,EAST place the
robot and write nothing. -/
theorem place_trailing_text_accepted :
    stoi "1X" = .ok 1 ∧ stoi "2.5" = .ok 2 ∧ stoi "0X10" = .ok 0 ∧
      processCommand initialRobot "PLACE" ["1X", "2.5", "NORTH"] =
        some (ToyRobot.mk 1 2 North, []) ∧
      processCommand (ToyRobot.mk 3 3 South) "PLACE" ["0X10", "2", "EAST"] =
        some (ToyRobot.mk 0 2 East, []) :=
  ⟨rfl, rfl, rfl, by decide, by decide⟩

/-! ## Unrecognized commands -/

/-- C7. Unrecognized command: for every state and every non-empty token sequence
`command :: args` that passes the gate (the robot is on the table, or the first token is
"PLACE") and whose (name, argument count) pair is none of (MOVE,0), (LEFT,0), (RIGHT,0),
(REPORT,0), (PLACE,3), the iteration writes exactly the one line
"Unknown command or invalid argument count." and leaves the state unchanged. -/
theorem unknown_command (robot : ToyRobot) (command : String) (args : List String)
    (hgate : (0 ≤ robot.x_ ∧ robot.x_ < 5 ∧ 0 ≤ robot.y_ ∧ robot.y_ < 5) ∨ command = "PLACE")
    (hmove : ¬ (command = "MOVE" ∧ args.length = 0))
    (hleft : ¬ (command = "LEFT" ∧ args.length = 0))
    (hright : ¬ (command = "RIGHT" ∧ args.length = 0))
    (hreport : ¬ (command = "REPORT" ∧ args.length = 0))
    (hplace : ¬ (command = "PLACE" ∧ args.length = 3)) :
    processCommand robot command args =
      some (robot, ["Unknown command or invalid argument count."]) := by
  have hg : ¬ (OffTable robot ∧ command ≠ "PLACE") := by
    rw [offTable_iff]
    rcases hgate with h | h
    · exact fun hh => hh.1 h
    · exact fun hh => hh.2 h
  unfold processCommand
  rw [if_neg hg, if_neg (fun h => hmove ⟨h.2, h.1⟩), if_neg (fun h => hleft ⟨h.2, h.1⟩),
    if_neg (fun h => hright ⟨h.2, h.1⟩), if_neg (fun h => hreport ⟨h.2, h.1⟩),
    if_neg (fun h => hplace ⟨h.2, h.1⟩)]

/-- Witness for C7: PLACE 1,1,NORTH,EXTRA on the initial robot. -/
theorem unknown_command_witness :
    processCommand initialRobot "PLACE" ["1", "1", "NORTH", "EXTRA"] =
      some (initialRobot, ["Unknown command or invalid argument count."]) :=
  unknown_command initialRobot "PLACE" ["1", "1", "NORTH", "EXTRA"]
    (Or.inr rfl) (by decide) (by decide) (by decide) (by decide) (by decide)

/-! ## REPORT -/

/-- C8. REPORT step: for every on-table state (x, y, d) with d one of the four directions and
`name` its uppercase name, processing ["REPORT"] leaves the state unchanged and writes exactly
one line: the decimal text of x (here a single digit), a comma, the decimal text of y, a
comma, and `name`; the state (0,0,North) gives "0,0,NORTH". -/
theorem report_step (x y d : Int) (name : String) (hx : 0 ≤ x ∧ x < 5) (hy : 0 ≤ y ∧ y < 5)
    (hd : (d = North ∧ name = "NORTH") ∨ (d = East ∧ name = "EAST") ∨
      (d = South ∧ name = "SOUTH") ∨ (d = West ∧ name = "WEST")) :
    processCommand (ToyRobot.mk x y d) "REPORT" [] =
        some (ToyRobot.mk x y d, [showInt x ++ "," ++ showInt y ++ "," ++ name]) ∧
      showInt x = String.mk [Char.ofNat (48 + x.toNat)] ∧
      showInt y = String.mk [Char.ofNat (48 + y.toNat)] ∧
      processCommand (ToyRobot.mk 0 0 North) "REPORT" [] =
        some (ToyRobot.mk 0 0 North, ["0,0,NORTH"]) := by
  have hon : ¬ OffTable (ToyRobot.mk x y d) := by
    rw [offTable_iff]; simp [hx, hy]
  have hname : DirToName d = some name := by
    rcases hd with ⟨rfl, rfl⟩ | ⟨rfl, rfl⟩ | ⟨rfl, rfl⟩ | ⟨rfl, rfl⟩ <;> decide
  refine ⟨?_, ?_, ?_, by decide⟩
  · simp [processCommand, hon, render, hname]
  · obtain ⟨h0, h5⟩ := hx
    interval_cases x <;> decide
  · obtain ⟨h0, h5⟩ := hy
    interval_cases y <;> decide

/-- Witness for C8: REPORT at (3,4) facing West. -/
theorem report_step_witness :
    processCommand (ToyRobot.mk 3 4 West) "REPORT" [] =
        some (ToyRobot.mk 3 4 West, [showInt 3 ++ "," ++ showInt 4 ++ "," ++ "WEST"]) ∧
      showInt 3 = String.mk [Char.ofNat (48 + (3 : Int).toNat)] ∧
      showInt 4 = String.mk [Char.ofNat (48 + (4 : Int).toNat)] ∧
      processCommand (ToyRobot.mk 0 0 North) "REPORT" [] =
        some (ToyRobot.mk 0 0 North, ["0,0,NORTH"]) :=
  report_step 3 4 West "WEST" (by decide) (by decide) (by decide)

/-! ## Turning -/

/-- C9, the code at the failing input: a right turn from West gives the value 360, which is
neither North (0) nor any other enumerator, although `DirToName` prints it as NORTH; `Move`
then matches no case and leaves the position alone. A left turn from North gives West. -/
theorem turn_right_from_west_is_360 :
    (ToyRobot.mk 0 0 West).Turn 90 = 360 ∧ (ToyRobot.mk 0 0 West).Turn 90 ≠ North ∧
      (ToyRobot.mk 0 0 North).Turn (-90) = West ∧
      DirToName ((ToyRobot.mk 0 0 West).Turn 90) = some "NORTH" ∧
      (ToyRobot.mk 0 0 West).TurnRight.Move = ToyRobot.mk 0 0 360 ∧
      mainLoop initialRobot [["PLACE", "0", "0", "WEST"], ["RIGHT"], ["MOVE"], ["REPORT"]] =
        some (ToyRobot.mk 0 0 360, ["0,0,NORTH"]) := by
  decide

/-- C10, the code at the failing input: four right turns from (0,0,North) keep x and y but
leave the facing value 360, not 0; from every enumerator d they leave d + 360. -/
theorem four_right_turns_add_360 :
    (ToyRobot.mk 0 0 North).TurnRight.TurnRight.TurnRight.TurnRight = ToyRobot.mk 0 0 360 ∧
      (ToyRobot.mk 0 0 North).TurnRight.TurnRight.TurnRight.TurnRight ≠ ToyRobot.mk 0 0 North ∧
      (ToyRobot.mk 1 2 East).TurnRight.TurnRight.TurnRight.TurnRight = ToyRobot.mk 1 2 450 ∧
      (ToyRobot.mk 1 2 South).TurnRight.TurnRight.TurnRight.TurnRight = ToyRobot.mk 1 2 540 ∧
      (ToyRobot.mk 1 2 West).TurnRight.TurnRight.TurnRight.TurnRight = ToyRobot.mk 1 2 630 ∧
      mainLoop (ToyRobot.mk 0 0 North) [["RIGHT"], ["RIGHT"], ["RIGHT"], ["RIGHT"]] =
        some (ToyRobot.mk 0 0 360, []) := by
  decide

/-! ## Facing values of reachable states -/

theorem Move_facing (robot : ToyRobot) : robot.Move.facing_ = robot.facing_ := by
  unfold ToyRobot.Move; split_ifs <;> rfl

theorem TurnLeft_facing (robot : ToyRobot) :
    robot.TurnLeft.facing_ =
      if robot.facing_ + -90 < 0 then 360 + (robot.facing_ + -90) else robot.facing_ + -90 := by
  have e : (-90 : Int).tmod 360 = -90 := by decide
  simp only [ToyRobot.TurnLeft, ToyRobot.Turn, CompassPointMax, e]

theorem TurnRight_facing (robot : ToyRobot) :
    robot.TurnRight.facing_ =
      if robot.facing_ + 90 < 0 then 360 + (robot.facing_ + 90) else robot.facing_ + 90 := by
  have e : (90 : Int).tmod 360 = 90 := by decide
  simp only [ToyRobot.TurnRight, ToyRobot.Turn, CompassPointMax, e]

theorem FacingInv_initialRobot : FacingInv initialRobot := by
  simp [FacingInv, initialRobot, North]

theorem placeCommand_facingInv (robot : ToyRobot) (a1 a2 a3 : String) (h : FacingInv robot) :
    FacingInv (placeCommand robot a1 a2 a3).1 := by
  unfold placeCommand
  split
  · rename_i x y dir hp
    have hdir := parsePlace_ok_facing _ _ _ _ _ _ hp
    by_cases hoff : OffTable (robot.Place x y dir)
    · simp [hoff, h]
    · simp only [if_neg hoff]
      simp only [ToyRobot.Place, FacingInv]
      rcases hdir with rfl | rfl | rfl | rfl <;> simp [North, East, South, West]
  · simp [h]

theorem processCommand_facingInv (robot : ToyRobot) (command : String) (args : List String)
    (h : FacingInv robot) (next : ToyRobot) (out : List String)
    (hstep : processCommand robot command args = some (next, out)) : FacingInv next := by
  unfold processCommand at hstep
  split_ifs at hstep with hg hmove hleft hright hreport hplace
  · simp only [Option.some.injEq, Prod.mk.injEq] at hstep
    exact hstep.1 ▸ h
  · simp only [Option.some.injEq, Prod.mk.injEq] at hstep
    rw [← hstep.1]
    split_ifs
    · exact h
    · exact ⟨by rw [Move_facing]; exact h.1, by rw [Move_facing]; exact h.2⟩
  · simp only [Option.some.injEq, Prod.mk.injEq] at hstep
    rw [← hstep.1]
    obtain ⟨h0, h90⟩ := h
    unfold FacingInv
    rw [TurnLeft_facing]
    split_ifs <;> omega
  · simp only [Option.some.injEq, Prod.mk.injEq] at hstep
    rw [← hstep.1]
    obtain ⟨h0, h90⟩ := h
    unfold FacingInv
    rw [TurnRight_facing]
    split_ifs <;> omega
  · cases hr : render robot with
    | none => simp [hr] at hstep
    | some line =>
      simp only [hr, Option.map_some', Option.some.injEq, Prod.mk.injEq] at hstep
      exact hstep.1 ▸ h
  · obtain ⟨hlen, -⟩ := hplace
    match args, hlen with
    | [a1, a2, a3], _ =>
      simp only [Option.some.injEq] at hstep
      have := placeCommand_facingInv robot a1 a2 a3 h
      rw [hstep] at this
      exact this
  · simp only [Option.some.injEq, Prod.mk.injEq] at hstep
    exact hstep.1 ▸ h

theorem mainLoop_facingInv (cmds : List (List String)) :
    ∀ (robot final : ToyRobot) (out : List String), FacingInv robot →
      mainLoop robot cmds = some (final, out) → FacingInv final := by
  induction cmds with
  | nil =>
    intro robot final out h hrun
    simp only [mainLoop, Option.some.injEq, Prod.mk.injEq] at hrun
    exact hrun.1 ▸ h
  | cons c rest ih =>
    intro robot final out h hrun
    cases c with
    | nil =>
      simp only [mainLoop, Option.some.injEq, Prod.mk.injEq] at hrun
      exact hrun.1 ▸ h
    | cons command args =>
      simp only [mainLoop] at hrun
      cases hstep : processCommand robot command args with
      | none => simp [hstep] at hrun
      | some p =>
        obtain ⟨next, o⟩ := p
        have hnext := processCommand_facingInv robot command args h next o hstep
        simp only [hstep] at hrun
        cases hrest : mainLoop next rest with
        | none => simp [hrest] at hrun
        | some q =>
          obtain ⟨fin, later⟩ := q
          simp only [hrest, Option.some.injEq, Prod.mk.injEq] at hrun
          exact hrun.1 ▸ ih next fin later hnext hrest

/-- The table index of `DirToName` for a non-negative multiple of 90. -/
theorem DirToName_index (f : Int) (h0 : 0 ≤ f) (h90 : f % 90 = 0) :
    (f.tmod CompassPointMax).tdiv CompassPointSeparation = f % 360 / 90 ∧
      (f % 360 = 0 ∨ f % 360 = 90 ∨ f % 360 = 180 ∨ f % 360 = 270) := by
  unfold CompassPointMax CompassPointSeparation
  have h1 : f.tmod 360 = f % 360 := Int.tmod_eq_emod h0 (by decide)
  have h2 : (f % 360).tdiv 90 = (f % 360) / 90 :=
    Int.tdiv_eq_ediv (Int.emod_nonneg _ (by decide)) (by decide)
  rw [h1, h2]
  exact ⟨rfl, by omega⟩

theorem DirToName_of_emod (f : Int) (h0 : 0 ≤ f) (h90 : f % 90 = 0) :
    (f % 360 = 0 → DirToName f = some "NORTH") ∧ (f % 360 = 90 → DirToName f = some "EAST") ∧
      (f % 360 = 180 → DirToName f = some "SOUTH") ∧
      (f % 360 = 270 → DirToName f = some "WEST") := by
  have hidx := (DirToName_index f h0 h90).1
  unfold DirToName
  simp only [hidx]
  refine ⟨fun h => ?_, fun h => ?_, fun h => ?_, fun h => ?_⟩ <;> rw [h] <;> decide

theorem FacingInv_TurnLeft (robot : ToyRobot) (h : FacingInv robot) :
    FacingInv robot.TurnLeft := by
  obtain ⟨h0, h90⟩ := h
  unfold FacingInv
  rw [TurnLeft_facing]
  split_ifs <;> omega

theorem FacingInv_TurnRight (robot : ToyRobot) (h : FacingInv robot) :
    FacingInv robot.TurnRight := by
  obtain ⟨h0, h90⟩ := h
  unfold FacingInv
  rw [TurnRight_facing]
  split_ifs <;> omega

theorem TurnLeft_emod (robot : ToyRobot) (h : FacingInv robot) :
    robot.TurnLeft.facing_ % 360 = (robot.facing_ % 360 + 270) % 360 := by
  obtain ⟨h0, h90⟩ := h
  rw [TurnLeft_facing]
  split_ifs <;> omega

theorem TurnRight_emod (robot : ToyRobot) (h : FacingInv robot) :
    robot.TurnRight.facing_ % 360 = (robot.facing_ % 360 + 90) % 360 := by
  obtain ⟨h0, h90⟩ := h
  rw [TurnRight_facing]
  split_ifs <;> omega

/-- The name printed for the facing value of a reachable state, and the names printed after
a left and after a right turn. -/
theorem DirToName_turns (robot : ToyRobot) (h : FacingInv robot) :
    ∃ name, (name = "NORTH" ∨ name = "EAST" ∨ name = "SOUTH" ∨ name = "WEST") ∧
      DirToName robot.facing_ = some name ∧
      DirToName robot.TurnLeft.facing_ =
        some (if name = "NORTH" then "WEST" else if name = "WEST" then "SOUTH"
          else if name = "SOUTH" then "EAST" else "NORTH") ∧
      DirToName robot.TurnRight.facing_ =
        some (if name = "NORTH" then "EAST" else if name = "EAST" then "SOUTH"
          else if name = "SOUTH" then "WEST" else "NORTH") := by
  have hcur := DirToName_of_emod robot.facing_ h.1 h.2
  have hL := FacingInv_TurnLeft robot h
  have hR := FacingInv_TurnRight robot h
  have hLn := DirToName_of_emod robot.TurnLeft.facing_ hL.1 hL.2
  have hRn := DirToName_of_emod robot.TurnRight.facing_ hR.1 hR.2
  have hLe := TurnLeft_emod robot h
  have hRe := TurnRight_emod robot h
  rcases (DirToName_index robot.facing_ h.1 h.2).2 with hr | hr | hr | hr
  · refine ⟨"NORTH", by decide, hcur.1 hr, ?_, ?_⟩
    · rw [hLn.2.2.2 (by omega)]; decide
    · rw [hRn.2.1 (by omega)]; decide
  · refine ⟨"EAST", by decide, hcur.2.1 hr, ?_, ?_⟩
    · rw [hLn.1 (by omega)]; decide
    · rw [hRn.2.2.1 (by omega)]; decide
  · refine ⟨"SOUTH", by decide, hcur.2.2.1 hr, ?_, ?_⟩
    · rw [hLn.2.1 (by omega)]; decide
    · rw [hRn.2.2.2 (by omega)]; decide
  · refine ⟨"WEST", by decide, hcur.2.2.2 hr, ?_, ?_⟩
    · rw [hLn.2.2.1 (by omega)]; decide
    · rw [hRn.1 (by omega)]; decide

theorem report_of_name (robot : ToyRobot) (name : String)
    (hon : 0 ≤ robot.x_ ∧ robot.x_ < 5 ∧ 0 ≤ robot.y_ ∧ robot.y_ < 5)
    (hname : DirToName robot.facing_ = some name) :
    processCommand robot "REPORT" [] =
      some (robot, [showInt robot.x_ ++ "," ++ showInt robot.y_ ++ "," ++ name]) := by
  have hoff : ¬ OffTable robot := by rw [offTable_iff]; exact not_not.mpr hon
  simp [processCommand, hoff, render, hname]

/-! ## LEFT and RIGHT -/

/-- C11. LEFT / RIGHT step: for every state `robot` reached from the initial state by a
sequence of commands `cmds` and on the table, REPORT prints one of the four names; processing
["LEFT"] or ["RIGHT"] writes nothing and leaves x and y unchanged, and the name REPORT prints
afterwards is the next one counter-clockwise for LEFT (NORTH, WEST, SOUTH, EAST, NORTH) and
clockwise for RIGHT (NORTH, EAST, SOUTH, WEST, NORTH). PLACE 1,2,EAST, LEFT, REPORT prints
"1,2,NORTH". -/
theorem turn_commands_step (cmds : List (List String)) (robot : ToyRobot) (out : List String)
    (hreach : mainLoop initialRobot cmds = some (robot, out))
    (hon : 0 ≤ robot.x_ ∧ robot.x_ < 5 ∧ 0 ≤ robot.y_ ∧ robot.y_ < 5) :
    ∃ name left right,
      (name = "NORTH" ∨ name = "EAST" ∨ name = "SOUTH" ∨ name = "WEST") ∧
      processCommand robot "REPORT" [] =
        some (robot, [showInt robot.x_ ++ "," ++ showInt robot.y_ ++ "," ++ name]) ∧
      processCommand robot "LEFT" [] = some (left, []) ∧
      left.x_ = robot.x_ ∧ left.y_ = robot.y_ ∧
      processCommand left "REPORT" [] =
        some (left, [showInt robot.x_ ++ "," ++ showInt robot.y_ ++ "," ++
          (if name = "NORTH" then "WEST" else if name = "WEST" then "SOUTH"
            else if name = "SOUTH" then "EAST" else "NORTH")]) ∧
      processCommand robot "RIGHT" [] = some (right, []) ∧
      right.x_ = robot.x_ ∧ right.y_ = robot.y_ ∧
      processCommand right "REPORT" [] =
        some (right, [showInt robot.x_ ++ "," ++ showInt robot.y_ ++ "," ++
          (if name = "NORTH" then "EAST" else if name = "EAST" then "SOUTH"
            else if name = "SOUTH" then "WEST" else "NORTH")]) ∧
      mainLoop initialRobot [["PLACE", "1", "2", "EAST"], ["LEFT"], ["REPORT"]] =
        some (ToyRobot.mk 1 2 North, ["1,2,NORTH"]) := by
  have hinv := mainLoop_facingInv cmds initialRobot robot out FacingInv_initialRobot hreach
  obtain ⟨name, hmem, hcur, hleft, hright⟩ := DirToName_turns robot hinv
  have hoff : ¬ OffTable robot := by rw [offTable_iff]; exact not_not.mpr hon
  refine ⟨name, robot.TurnLeft, robot.TurnRight, hmem, report_of_name robot name hon hcur,
    ?_, rfl, rfl, ?_, ?_, rfl, rfl, ?_, by decide⟩
  · simp [processCommand, hoff]
  · exact report_of_name robot.TurnLeft _ hon hleft
  · simp [processCommand, hoff]
  · exact report_of_name robot.TurnRight _ hon hright

/-- Witness for C11: the state reached by PLACE 1,2,EAST. -/
theorem turn_commands_step_witness :
    ∃ name left right,
      (name = "NORTH" ∨ name = "EAST" ∨ name = "SOUTH" ∨ name = "WEST") ∧
      processCommand (ToyRobot.mk 1 2 East) "REPORT" [] =
        some (ToyRobot.mk 1 2 East,
          [showInt (ToyRobot.mk 1 2 East).x_ ++ "," ++ showInt (ToyRobot.mk 1 2 East).y_ ++ ","
            ++ name]) ∧
      processCommand (ToyRobot.mk 1 2 East) "LEFT" [] = some (left, []) ∧
      left.x_ = (ToyRobot.mk 1 2 East).x_ ∧ left.y_ = (ToyRobot.mk 1 2 East).y_ ∧
      processCommand left "REPORT" [] =
        some (left,
          [showInt (ToyRobot.mk 1 2 East).x_ ++ "," ++ showInt (ToyRobot.mk 1 2 East).y_ ++ ","
            ++ (if name = "NORTH" then "WEST" else if name = "WEST" then "SOUTH"
              else if name = "SOUTH" then "EAST" else "NORTH")]) ∧
      processCommand (ToyRobot.mk 1 2 East) "RIGHT" [] = some (right, []) ∧
      right.x_ = (ToyRobot.mk 1 2 East).x_ ∧ right.y_ = (ToyRobot.mk 1 2 East).y_ ∧
      processCommand right "REPORT" [] =
        some (right,
          [showInt (ToyRobot.mk 1 2 East).x_ ++ "," ++ showInt (ToyRobot.mk 1 2 East).y_ ++ ","
            ++ (if name = "NORTH" then "EAST" else if name = "EAST" then "SOUTH"
              else if name = "SOUTH" then "WEST" else "NORTH")]) ∧
      mainLoop initialRobot [["PLACE", "1", "2", "EAST"], ["LEFT"], ["REPORT"]] =
        some (ToyRobot.mk 1 2 North, ["1,2,NORTH"]) :=
  turn_commands_step [["PLACE", "1", "2", "EAST"]] (ToyRobot.mk 1 2 East) []
    (by decide) (by decide)

/-! ## Direction names -/

/-- C13. Direction name round trip: `NameToDir s` succeeds if and only if `s` is exactly one
of "NORTH", "EAST", "SOUTH", "WEST" and fails with `invalid_argument` for every other string;
for each of the four directions `d`, `NameToDir (DirToName d) = d`; and for each of the four
names `s`, `DirToName (NameToDir s) = s`. -/
theorem name_direction_round_trip (s : String) (d : Int) :
    ((∃ v, NameToDir s = .ok v) ↔ (s = "NORTH" ∨ s = "EAST" ∨ s = "SOUTH" ∨ s = "WEST")) ∧
      (¬ (s = "NORTH" ∨ s = "EAST" ∨ s = "SOUTH" ∨ s = "WEST") →
        NameToDir s = .error .invalid_argument) ∧
      ((d = North ∨ d = East ∨ d = South ∨ d = West) →
        ∃ name, DirToName d = some name ∧ NameToDir name = .ok d) ∧
      ((s = "NORTH" ∨ s = "EAST" ∨ s = "SOUTH" ∨ s = "WEST") →
        ∃ v, NameToDir s = .ok v ∧ DirToName v = some s) := by
  have hfail : ¬ (s = "NORTH" ∨ s = "EAST" ∨ s = "SOUTH" ∨ s = "WEST") →
      NameToDir s = .error .invalid_argument := by
    intro h
    simp only [not_or] at h
    simp [NameToDir, h.1, h.2.1, h.2.2.1, h.2.2.2]
  have hback : (s = "NORTH" ∨ s = "EAST" ∨ s = "SOUTH" ∨ s = "WEST") →
      ∃ v, NameToDir s = .ok v ∧ DirToName v = some s := by
    rintro (rfl | rfl | rfl | rfl)
    · exact ⟨North, rfl, by decide⟩
    · exact ⟨East, rfl, by decide⟩
    · exact ⟨South, rfl, by decide⟩
    · exact ⟨West, rfl, by decide⟩
  refine ⟨⟨?_, fun h => ?_⟩, hfail, ?_, hback⟩
  · rintro ⟨v, hv⟩
    by_contra hn
    rw [hfail hn] at hv
    simp at hv
  · obtain ⟨v, hv, -⟩ := hback h
    exact ⟨v, hv⟩
  · rintro (rfl | rfl | rfl | rfl)
    · exact ⟨"NORTH", by decide, rfl⟩
    · exact ⟨"EAST", by decide, rfl⟩
    · exact ⟨"SOUTH", by decide, rfl⟩
    · exact ⟨"WEST", by decide, rfl⟩

/-! ## Facing values that are not enumerators -/

/-- C14, the code at the failing input: PLACE 0,0,WEST followed by RIGHT reaches a state
whose stored facing value is 360, which is none of 0, 90, 180, 270. -/
theorem reachable_facing_360 :
    mainLoop initialRobot [["PLACE", "0", "0", "WEST"], ["RIGHT"]] =
        some (ToyRobot.mk 0 0 360, []) ∧
      ¬ ((360 : Int) = North ∨ (360 : Int) = East ∨ (360 : Int) = South ∨ (360 : Int) = West) := by
  decide

/-- C17, the code at the failing input: after PLACE 0,0,WEST and RIGHT the robot is at (0,0),
REPORT prints NORTH and the cell (0,1) is on the table, yet MOVE leaves the robot at (0,0):
the stored facing value 360 matches no case of the switch in `Move`. PLACE 0,0,WEST, RIGHT,
MOVE, REPORT prints "0,0,NORTH", not "0,1,NORTH". -/
theorem move_ignores_reported_north :
    mainLoop initialRobot [["PLACE", "0", "0", "WEST"], ["RIGHT"]] =
        some (ToyRobot.mk 0 0 360, []) ∧
      processCommand (ToyRobot.mk 0 0 360) "REPORT" [] =
        some (ToyRobot.mk 0 0 360, ["0,0,NORTH"]) ∧
      ¬ OffTable (ToyRobot.mk 0 (0 + 1) 360) ∧
      processCommand (ToyRobot.mk 0 0 360) "MOVE" [] = some (ToyRobot.mk 0 0 360, []) ∧
      mainLoop initialRobot [["PLACE", "0", "0", "WEST"], ["RIGHT"], ["MOVE"], ["REPORT"]] =
        some (ToyRobot.mk 0 0 360, ["0,0,NORTH"]) := by
  decide

/-- C19, the code at the failing input: from (1,2,North) a left turn followed by a right turn
ends with the facing value 360, not North; a right turn followed by a left turn does restore
each of the four enumerators, and so does left-then-right from East, South and West. -/
theorem left_then_right_from_north_is_360 :
    (ToyRobot.mk 1 2 North).TurnLeft.TurnRight = ToyRobot.mk 1 2 360 ∧
      (ToyRobot.mk 1 2 North).TurnLeft.TurnRight ≠ ToyRobot.mk 1 2 North ∧
      (ToyRobot.mk 1 2 East).TurnLeft.TurnRight = ToyRobot.mk 1 2 East ∧
      (ToyRobot.mk 1 2 South).TurnLeft.TurnRight = ToyRobot.mk 1 2 South ∧
      (ToyRobot.mk 1 2 West).TurnLeft.TurnRight = ToyRobot.mk 1 2 West ∧
      (ToyRobot.mk 1 2 North).TurnRight.TurnLeft = ToyRobot.mk 1 2 North ∧
      (ToyRobot.mk 1 2 East).TurnRight.TurnLeft = ToyRobot.mk 1 2 East ∧
      (ToyRobot.mk 1 2 South).TurnRight.TurnLeft = ToyRobot.mk 1 2 South ∧
      (ToyRobot.mk 1 2 West).TurnRight.TurnLeft = ToyRobot.mk 1 2 West := by
  decide

/-! ## The lookup in `DirectionNames` -/

/-- C20. `DirToName` lookup in bounds on reachable states: every finite sequence `cmds` of
tokenized commands run from the initial state (-1,-1,North) ends normally (`int` arithmetic
is unbounded in the model, so it does not overflow), and in the state it reaches the stored
facing value is a non-negative multiple of 90, the index (facing % 360) / 90 computed by
`DirToName` lies in 0..3, below the length of the four-element table, and the lookup succeeds;
so does every further iteration, REPORT included. -/
theorem lookup_in_bounds (cmds : List (List String)) :
    ∃ robot out, mainLoop initialRobot cmds = some (robot, out) ∧
      0 ≤ robot.facing_ ∧ robot.facing_ % 90 = 0 ∧
      0 ≤ (robot.facing_.tmod CompassPointMax).tdiv CompassPointSeparation ∧
      (robot.facing_.tmod CompassPointMax).tdiv CompassPointSeparation ≤ 3 ∧
      ((robot.facing_.tmod CompassPointMax).tdiv CompassPointSeparation).toNat
        < DirectionNames.length ∧
      (DirToName robot.facing_).isSome = true ∧
      (processCommand robot "REPORT" []).isSome = true := by
  obtain ⟨robot, out, hrun, hinv, -⟩ := mainLoop_inv cmds initialRobot Inv_initialRobot
  have hf := mainLoop_facingInv cmds initialRobot robot out FacingInv_initialRobot hrun
  obtain ⟨hidx, hr⟩ := DirToName_index robot.facing_ hf.1 hf.2
  obtain ⟨next, o, hstep, -, -⟩ := processCommand_inv robot "REPORT" [] hinv
  refine ⟨robot, out, hrun, hf.1, hf.2, ?_, ?_, ?_, DirToName_isSome_of_nonneg _ hf.1, ?_⟩
  · rw [hidx]; omega
  · rw [hidx]; omega
  · rw [hidx]
    have : DirectionNames.length = 4 := rfl
    omega
  · rw [hstep]; rfl

/-! ## Repeated MOVE -/

theorem mainLoop_cons_silent (robot next : ToyRobot) (command : String) (args : List String)
    (rest : List (List String)) (h : processCommand robot command args = some (next, [])) :
    mainLoop robot ((command :: args) :: rest) = mainLoop next rest := by
  simp only [mainLoop, h]
  cases mainLoop next rest with
  | none => rfl
  | some p => rfl

theorem move_command (robot : ToyRobot)
    (hon : 0 ≤ robot.x_ ∧ robot.x_ < 5 ∧ 0 ≤ robot.y_ ∧ robot.y_ < 5) :
    processCommand robot "MOVE" [] =
      some (if OffTable robot.Move then robot else robot.Move, []) := by
  have hoff : ¬ OffTable robot := by rw [offTable_iff]; exact not_not.mpr hon
  simp [processCommand, hoff]

theorem move_north (x y : Int) (hx : 0 ≤ x ∧ x < 5) (hy : 0 ≤ y ∧ y < 5) :
    processCommand (ToyRobot.mk x y North) "MOVE" [] =
      some (ToyRobot.mk x (min (y + 1) 4) North, []) := by
  rw [move_command _ ⟨hx.1, hx.2, hy.1, hy.2⟩]
  have hm : (ToyRobot.mk x y North).Move = ToyRobot.mk x (y + 1) North := by
    simp [ToyRobot.Move]
  by_cases h4 : y + 1 < 5
  · have hoff : ¬ OffTable (ToyRobot.mk x (y + 1) North) := by
      rw [offTable_iff]; simp only [not_not]; omega
    have e : min (y + 1) 4 = y + 1 := by omega
    rw [hm, if_neg hoff, e]
  · have hoff : OffTable (ToyRobot.mk x (y + 1) North) := by
      rw [offTable_iff]; simp only; omega
    have e : min (y + 1) 4 = y := by omega
    rw [hm, if_pos hoff, e]

theorem move_east (x y : Int) (hx : 0 ≤ x ∧ x < 5) (hy : 0 ≤ y ∧ y < 5) :
    processCommand (ToyRobot.mk x y East) "MOVE" [] =
      some (ToyRobot.mk (min (x + 1) 4) y East, []) := by
  rw [move_command _ ⟨hx.1, hx.2, hy.1, hy.2⟩]
  have hm : (ToyRobot.mk x y East).Move = ToyRobot.mk (x + 1) y East := by
    simp [ToyRobot.Move, East, North]
  by_cases h4 : x + 1 < 5
  · have hoff : ¬ OffTable (ToyRobot.mk (x + 1) y East) := by
      rw [offTable_iff]; simp only [not_not]; omega
    have e : min (x + 1) 4 = x + 1 := by omega
    rw [hm, if_neg hoff, e]
  · have hoff : OffTable (ToyRobot.mk (x + 1) y East) := by
      rw [offTable_iff]; simp only; omega
    have e : min (x + 1) 4 = x := by omega
    rw [hm, if_pos hoff, e]

theorem move_south (x y : Int) (hx : 0 ≤ x ∧ x < 5) (hy : 0 ≤ y ∧ y < 5) :
    processCommand (ToyRobot.mk x y South) "MOVE" [] =
      some (ToyRobot.mk x (max (y - 1) 0) South, []) := by
  rw [move_command _ ⟨hx.1, hx.2, hy.1, hy.2⟩]
  have hm : (ToyRobot.mk x y South).Move = ToyRobot.mk x (y - 1) South := by
    simp [ToyRobot.Move, East, North, South]
  by_cases h0 : 0 ≤ y - 1
  · have hoff : ¬ OffTable (ToyRobot.mk x (y - 1) South) := by
      rw [offTable_iff]; simp only [not_not]; omega
    have e : max (y - 1) 0 = y - 1 := by omega
    rw [hm, if_neg hoff, e]
  · have hoff : OffTable (ToyRobot.mk x (y - 1) South) := by
      rw [offTable_iff]; simp only; omega
    have e : max (y - 1) 0 = y := by omega
    rw [hm, if_pos hoff, e]

theorem move_west (x y : Int) (hx : 0 ≤ x ∧ x < 5) (hy : 0 ≤ y ∧ y < 5) :
    processCommand (ToyRobot.mk x y West) "MOVE" [] =
      some (ToyRobot.mk (max (x - 1) 0) y West, []) := by
  rw [move_command _ ⟨hx.1, hx.2, hy.1, hy.2⟩]
  have hm : (ToyRobot.mk x y West).Move = ToyRobot.mk (x - 1) y West := by
    simp [ToyRobot.Move, East, North, South, West]
  by_cases h0 : 0 ≤ x - 1
  · have hoff : ¬ OffTable (ToyRobot.mk (x - 1) y West) := by
      rw [offTable_iff]; simp only [not_not]; omega
    have e : max (x - 1) 0 = x - 1 := by omega
    rw [hm, if_neg hoff, e]
  · have hoff : OffTable (ToyRobot.mk (x - 1) y West) := by
      rw [offTable_iff]; simp only; omega
    have e : max (x - 1) 0 = x := by omega
    rw [hm, if_pos hoff, e]

theorem moves_north (rest : List (List String)) (k : Nat) :
    ∀ x y : Int, 0 ≤ x ∧ x < 5 → 0 ≤ y ∧ y < 5 →
      mainLoop (ToyRobot.mk x y North) (List.replicate k ["MOVE"] ++ rest) =
        mainLoop (ToyRobot.mk x (min (y + k) 4) North) rest := by
  induction k with
  | zero =>
    intro x y hx hy
    have e : min (y + ((0 : Nat) : Int)) 4 = y := by omega
    simp only [List.replicate_zero, List.nil_append, e]
  | succ k ih =>
    intro x y hx hy
    have e : min (min (y + 1) 4 + (k : Int)) 4 = min (y + ((k + 1 : Nat) : Int)) 4 := by omega
    rw [List.replicate_succ, List.cons_append, mainLoop_cons_silent _ _ _ _ _ (move_north x y hx hy),
      ih x (min (y + 1) 4) hx (by omega), e]

theorem moves_east (rest : List (List String)) (k : Nat) :
    ∀ x y : Int, 0 ≤ x ∧ x < 5 → 0 ≤ y ∧ y < 5 →
      mainLoop (ToyRobot.mk x y East) (List.replicate k ["MOVE"] ++ rest) =
        mainLoop (ToyRobot.mk (min (x + k) 4) y East) rest := by
  induction k with
  | zero =>
    intro x y hx hy
    have e : min (x + ((0 : Nat) : Int)) 4 = x := by omega
    simp only [List.replicate_zero, List.nil_append, e]
  | succ k ih =>
    intro x y hx hy
    have e : min (min (x + 1) 4 + (k : Int)) 4 = min (x + ((k + 1 : Nat) : Int)) 4 := by omega
    rw [List.replicate_succ, List.cons_append, mainLoop_cons_silent _ _ _ _ _ (move_east x y hx hy),
      ih (min (x + 1) 4) y (by omega) hy, e]

theorem moves_south (rest : List (List String)) (k : Nat) :
    ∀ x y : Int, 0 ≤ x ∧ x < 5 → 0 ≤ y ∧ y < 5 →
      mainLoop (ToyRobot.mk x y South) (List.replicate k ["MOVE"] ++ rest) =
        mainLoop (ToyRobot.mk x (max (y - k) 0) South) rest := by
  induction k with
  | zero =>
    intro x y hx hy
    have e : max (y - ((0 : Nat) : Int)) 0 = y := by omega
    simp only [List.replicate_zero, List.nil_append, e]
  | succ k ih =>
    intro x y hx hy
    have e : max (max (y - 1) 0 - (k : Int)) 0 = max (y - ((k + 1 : Nat) : Int)) 0 := by omega
    rw [List.replicate_succ, List.cons_append, mainLoop_cons_silent _ _ _ _ _ (move_south x y hx hy),
      ih x (max (y - 1) 0) hx (by omega), e]

theorem moves_west (rest : List (List String)) (k : Nat) :
    ∀ x y : Int, 0 ≤ x ∧ x < 5 → 0 ≤ y ∧ y < 5 →
      mainLoop (ToyRobot.mk x y West) (List.replicate k ["MOVE"] ++ rest) =
        mainLoop (ToyRobot.mk (max (x - k) 0) y West) rest := by
  induction k with
  | zero =>
    intro x y hx hy
    have e : max (x - ((0 : Nat) : Int)) 0 = x := by omega
    simp only [List.replicate_zero, List.nil_append, e]
  | succ k ih =>
    intro x y hx hy
    have e : max (max (x - 1) 0 - (k : Int)) 0 = max (x - ((k + 1 : Nat) : Int)) 0 := by omega
    rw [List.replicate_succ, List.cons_append, mainLoop_cons_silent _ _ _ _ _ (move_west x y hx hy),
      ih (max (x - 1) 0) y (by omega) hy, e]

theorem stoi_showInt_on_table (x : Int) (hx : 0 ≤ x ∧ x < 5) : stoi (showInt x) = .ok x := by
  obtain ⟨h0, h5⟩ := hx
  interval_cases x <;> rfl

theorem place_on_table (prior : ToyRobot) (x y d : Int) (f : String)
    (hx : 0 ≤ x ∧ x < 5) (hy : 0 ≤ y ∧ y < 5) (hf : NameToDir f = .ok d) :
    processCommand prior "PLACE" [showInt x, showInt y, f] = some (ToyRobot.mk x y d, []) := by
  have hparse : parsePlace (showInt x) (showInt y) f = .ok (x, y, d) := by
    simp [parsePlace, stoi_showInt_on_table x hx, stoi_showInt_on_table y hy, hf]
  have hoff : ¬ OffTable (prior.Place x y d) := by
    rw [offTable_iff]; simp only [ToyRobot.Place, not_not]; omega
  simp [processCommand, placeCommand, hparse, hoff]
  rfl

theorem report_last (robot : ToyRobot) (name : String)
    (hon : 0 ≤ robot.x_ ∧ robot.x_ < 5 ∧ 0 ≤ robot.y_ ∧ robot.y_ < 5)
    (hname : DirToName robot.facing_ = some name) :
    mainLoop robot [["REPORT"]] =
      some (robot, [showInt robot.x_ ++ "," ++ showInt robot.y_ ++ "," ++ name]) := by
  simp [mainLoop, report_of_name robot name hon hname]

/-- C18. Repeated MOVE clamps at the edge: for every on-table (x, y), every direction name f
and every k >= 0, running PLACE x,y,f, then k MOVE commands, then REPORT from any prior state
ends normally and writes exactly one line: "x,min(y+k,4),NORTH" for f = NORTH,
"min(x+k,4),y,EAST" for EAST, "x,max(y-k,0),SOUTH" for SOUTH and "max(x-k,0),y,WEST" for WEST.
PLACE 0,0,NORTH, MOVE, REPORT prints "0,1,NORTH"; PLACE 0,0,SOUTH, MOVE, REPORT prints
"0,0,SOUTH". -/
theorem repeated_move_clamps (prior : ToyRobot) (x y : Int) (k : Nat) (f : String)
    (hx : 0 ≤ x ∧ x < 5) (hy : 0 ≤ y ∧ y < 5)
    (hf : f = "NORTH" ∨ f = "EAST" ∨ f = "SOUTH" ∨ f = "WEST") :
    (∃ final, mainLoop prior
        ([["PLACE", showInt x, showInt y, f]] ++ List.replicate k ["MOVE"] ++ [["REPORT"]]) =
      some (final,
        [if f = "NORTH" then showInt x ++ "," ++ showInt (min (y + k) 4) ++ "," ++ "NORTH"
         else if f = "EAST" then showInt (min (x + k) 4) ++ "," ++ showInt y ++ "," ++ "EAST"
         else if f = "SOUTH" then showInt x ++ "," ++ showInt (max (y - k) 0) ++ "," ++ "SOUTH"
         else showInt (max (x - k) 0) ++ "," ++ showInt y ++ "," ++ "WEST"])) ∧
      mainLoop initialRobot [["PLACE", "0", "0", "NORTH"], ["MOVE"], ["REPORT"]] =
        some (ToyRobot.mk 0 1 North, ["0,1,NORTH"]) ∧
      mainLoop initialRobot [["PLACE", "0", "0", "SOUTH"], ["MOVE"], ["REPORT"]] =
        some (ToyRobot.mk 0 0 South, ["0,0,SOUTH"]) := by
  refine ⟨?_, by decide, by decide⟩
  rcases hf with rfl | rfl | rfl | rfl
  · refine ⟨ToyRobot.mk x (min (y + k) 4) North, ?_⟩
    rw [List.append_assoc, List.singleton_append,
      mainLoop_cons_silent _ _ _ _ _ (place_on_table prior x y North "NORTH" hx hy rfl),
      moves_north _ k x y hx hy,
      report_last (ToyRobot.mk x (min (y + k) 4) North) "NORTH"
        (by simp only; omega) (show DirToName North = some "NORTH" by decide)]
    simp
  · refine ⟨ToyRobot.mk (min (x + k) 4) y East, ?_⟩
    rw [List.append_assoc, List.singleton_append,
      mainLoop_cons_silent _ _ _ _ _ (place_on_table prior x y East "EAST" hx hy rfl),
      moves_east _ k x y hx hy,
      report_last (ToyRobot.mk (min (x + k) 4) y East) "EAST"
        (by simp only; omega) (show DirToName East = some "EAST" by decide)]
    simp
  · refine ⟨ToyRobot.mk x (max (y - k) 0) South, ?_⟩
    rw [List.append_assoc, List.singleton_append,
      mainLoop_cons_silent _ _ _ _ _ (place_on_table prior x y South "SOUTH" hx hy rfl),
      moves_south _ k x y hx hy,
      report_last (ToyRobot.mk x (max (y - k) 0) South) "SOUTH"
        (by simp only; omega) (show DirToName South = some "SOUTH" by decide)]
    simp
  · refine ⟨ToyRobot.mk (max (x - k) 0) y West, ?_⟩
    rw [List.append_assoc, List.singleton_append,
      mainLoop_cons_silent _ _ _ _ _ (place_on_table prior x y West "WEST" hx hy rfl),
      moves_west _ k x y hx hy,
      report_last (ToyRobot.mk (max (x - k) 0) y West) "WEST"
        (by simp only; omega) (show DirToName West = some "WEST" by decide)]
    simp

/-- Witness for C18: PLACE 3,2,EAST, seven MOVE commands and REPORT on a placed robot. -/
theorem repeated_move_clamps_witness :
    ((∃ final, mainLoop (ToyRobot.mk 1 1 West)
        ([["PLACE", showInt 3, showInt 2, "EAST"]] ++ List.replicate 7 ["MOVE"]
          ++ [["REPORT"]]) =
      some (final,
        [if "EAST" = "NORTH" then
            showInt 3 ++ "," ++ showInt (min (2 + ((7 : Nat) : Int)) 4) ++ "," ++ "NORTH"
         else if "EAST" = "EAST" then
            showInt (min (3 + ((7 : Nat) : Int)) 4) ++ "," ++ showInt 2 ++ "," ++ "EAST"
         else if "EAST" = "SOUTH" then
            showInt 3 ++ "," ++ showInt (max (2 - ((7 : Nat) : Int)) 0) ++ "," ++ "SOUTH"
         else showInt (max (3 - ((7 : Nat) : Int)) 0) ++ "," ++ showInt 2 ++ "," ++ "WEST"])) ∧
      mainLoop initialRobot [["PLACE", "0", "0", "NORTH"], ["MOVE"], ["REPORT"]] =
        some (ToyRobot.mk 0 1 North, ["0,1,NORTH"]) ∧
      mainLoop initialRobot [["PLACE", "0", "0", "SOUTH"], ["MOVE"], ["REPORT"]] =
        some (ToyRobot.mk 0 0 South, ["0,0,SOUTH"])) ∧
      mainLoop (ToyRobot.mk 1 1 West)
        [["PLACE", "3", "2", "EAST"], ["MOVE"], ["MOVE"], ["MOVE"], ["MOVE"], ["MOVE"],
          ["MOVE"], ["MOVE"], ["REPORT"]] = some (ToyRobot.mk 4 2 East, ["4,2,EAST"]) :=
  ⟨repeated_move_clamps (ToyRobot.mk 1 1 West) 3 2 7 "EAST" (by decide) (by decide) (by decide),
    by decide⟩

/-! ## Tokenizer -/

theorem toNat_ofNat_upper (n : Nat) (h1 : 65 ≤ n) (h2 : n ≤ 90) : (Char.ofNat n).toNat = n := by
  interval_cases n <;> rfl

theorem toupper_toNat (c : Char) :
    (toupper c).toNat = if 97 ≤ c.toNat ∧ c.toNat ≤ 122 then c.toNat - 32 else c.toNat := by
  unfold toupper
  split_ifs with h
  · exact toNat_ofNat_upper _ (by omega) (by omega)
  · rfl

theorem toupper_not_lower (c : Char) :
    ¬ (97 ≤ (toupper c).toNat ∧ (toupper c).toNat ≤ 122) := by
  rw [toupper_toNat]
  split_ifs with h <;> omega

theorem toupper_of_not_lower (c : Char) (h : ¬ (97 ≤ c.toNat ∧ c.toNat ≤ 122)) :
    toupper c = c := by
  simp [toupper, h]

theorem toupper_idem (c : Char) : toupper (toupper c) = toupper c :=
  toupper_of_not_lower _ (toupper_not_lower c)

theorem Separator_iff (c : Char) :
    Separator c = true ↔ (c.toNat = 32 ∨ (9 ≤ c.toNat ∧ c.toNat ≤ 13)) ∨ c.toNat = 44 := by
  have hcomma : c = ',' ↔ c.toNat = 44 := by
    constructor
    · rintro rfl; rfl
    · intro h
      have : Char.ofNat c.toNat = Char.ofNat 44 := by rw [h]
      rwa [Char.ofNat_toNat] at this
  simp [Separator, isspace, hcomma]

theorem Separator_toupper (c : Char) : Separator (toupper c) = Separator c := by
  by_cases h : 97 ≤ c.toNat ∧ c.toNat ≤ 122
  · have h1 : ¬ (Separator c = true) := by rw [Separator_iff]; omega
    have h2 : ¬ (Separator (toupper c) = true) := by
      rw [Separator_iff, toupper_toNat, if_pos h]; omega
    rw [Bool.not_eq_true] at h1 h2
    rw [h1, h2]
  · rw [toupper_of_not_lower c h]

/-- The tokens of a text that is already in upper case, as the specification describes
them. -/
theorem splitOnP_head_tail (l : List Char) :
    ∃ M, l.splitOnP Separator = l.takeWhile (fun c => !Separator c) :: M ∧
      (M.filter (fun run => !run.isEmpty)).map String.mk =
        (((l.dropWhile (fun c => !Separator c)).splitOnP Separator).filter
          (fun run => !run.isEmpty)).map String.mk := by
  induction l with
  | nil => exact ⟨[], by simp [List.splitOnP_nil], by simp [List.splitOnP_nil]⟩
  | cons x xs ih =>
    by_cases hx : Separator x = true
    · refine ⟨xs.splitOnP Separator, ?_, ?_⟩
      · simp [List.splitOnP_cons, hx]
      · simp [List.dropWhile_cons, List.splitOnP_cons, hx]
    · obtain ⟨M, hM, hF⟩ := ih
      refine ⟨M, ?_, ?_⟩
      · simp [List.splitOnP_cons, hx, hM]
      · rw [hF]
        simp [List.dropWhile_cons, hx]

theorem splitOnP_dropWhile_separator (l : List Char) :
    (((l.dropWhile Separator).splitOnP Separator).filter (fun run => !run.isEmpty)).map
        String.mk =
      ((l.splitOnP Separator).filter (fun run => !run.isEmpty)).map String.mk := by
  induction l with
  | nil => rfl
  | cons x xs ih =>
    by_cases hx : Separator x = true
    · simp only [List.dropWhile_cons, hx, if_true, ih]
      simp [List.splitOnP_cons, hx]
    · simp [List.dropWhile_cons, hx]

theorem rest_length_lt (l : List Char) (h : l ≠ []) :
    ((l.dropWhile Separator).dropWhile (fun c => !Separator c)).length < l.length := by
  obtain ⟨x, xs, rfl⟩ := List.exists_cons_of_ne_nil h
  by_cases hx : Separator x = true
  · have h1 := (List.dropWhile_sublist (l := xs.dropWhile Separator)
      (fun c => !Separator c)).length_le
    have h2 := (List.dropWhile_sublist (l := xs) Separator).length_le
    simp only [List.dropWhile_cons, hx, if_true, List.length_cons]
    omega
  · have h1 := (List.dropWhile_sublist (l := xs) (fun c => !Separator c)).length_le
    simp only [Bool.not_eq_true] at hx
    simp only [List.dropWhile_cons, hx, Bool.false_eq_true, if_false, Bool.not_false, if_true,
      List.length_cons]
    omega

/-- With as much fuel as the text is long, the loop of `Tokenize` returns the non-empty pieces
between the separators. -/
theorem tokenizeLoop_eq (fuel : Nat) :
    ∀ l : List Char, l.length ≤ fuel →
      tokenizeLoop fuel l =
        ((l.splitOnP Separator).filter (fun run => !run.isEmpty)).map String.mk := by
  induction fuel with
  | zero =>
    intro l hl
    have : l = [] := List.eq_nil_of_length_eq_zero (by omega)
    subst this
    rfl
  | succ fuel ih =>
    intro l hl
    by_cases hnil : l = []
    · subst hnil; rfl
    · have hlt := rest_length_lt l hnil
      have hrest := ih ((l.dropWhile Separator).dropWhile (fun c => !Separator c)) (by omega)
      obtain ⟨M, hM, hF⟩ := splitOnP_head_tail (l.dropWhile Separator)
      rw [← splitOnP_dropWhile_separator l, hM]
      simp only [tokenizeLoop, hnil, if_false, hrest]
      by_cases htok : ((l.dropWhile Separator).takeWhile (fun c => !Separator c)).length > 0
      · have hne : ((l.dropWhile Separator).takeWhile (fun c => !Separator c)) ≠ [] := by
          intro h; rw [h] at htok; simp at htok
        simp [htok, List.filter_cons, hne, hF]
      · have he : ((l.dropWhile Separator).takeWhile (fun c => !Separator c)) = [] :=
          List.eq_nil_of_length_eq_zero (by omega)
        simp [he, hF]

theorem Tokenize_eq_specTokens (line : String) : Tokenize line = specTokens line := by
  unfold Tokenize specTokens
  exact tokenizeLoop_eq _ _ (Nat.le_refl _)

theorem tokenizeLoop_mem (fuel : Nat) :
    ∀ (l : List Char) (tok : String), tok ∈ tokenizeLoop fuel l →
      tok.toList ≠ [] ∧ ∀ c ∈ tok.toList, Separator c = false ∧ c ∈ l := by
  induction fuel with
  | zero => intro l tok h; simp [tokenizeLoop] at h
  | succ fuel ih =>
    intro l tok h
    by_cases hnil : l = []
    · subst hnil; simp [tokenizeLoop] at h
    · have hsub1 : ∀ c ∈ l.dropWhile Separator, c ∈ l :=
        fun c hc => (List.dropWhile_sublist Separator).subset hc
      have hsub2 : ∀ c ∈ (l.dropWhile Separator).dropWhile (fun c => !Separator c), c ∈ l :=
        fun c hc => hsub1 c ((List.dropWhile_sublist _).subset hc)
      have hrec : tok ∈ tokenizeLoop fuel
          ((l.dropWhile Separator).dropWhile (fun c => !Separator c)) →
          tok.toList ≠ [] ∧ ∀ c ∈ tok.toList, Separator c = false ∧ c ∈ l := by
        intro hm
        obtain ⟨h1, h2⟩ := ih _ tok hm
        exact ⟨h1, fun c hc => ⟨(h2 c hc).1, hsub2 c (h2 c hc).2⟩⟩
      simp only [tokenizeLoop, hnil, if_false] at h
      split_ifs at h with htok
      · rcases List.mem_cons.mp h with rfl | hm
        · refine ⟨?_, fun c hc => ?_⟩
          · intro he
            simp only [String.toList] at he
            rw [he] at htok
            simp at htok
          · simp only [String.toList] at hc
            have hq := List.mem_takeWhile_imp hc
            simp only [Bool.not_eq_true'] at hq
            exact ⟨hq, hsub1 c ((List.takeWhile_sublist _).subset hc)⟩
        · exact hrec hm
      · exact hrec h

/-- C12. Tokenizer reference definition: for every input line, `Tokenize` returns, in order,
exactly the maximal non-empty runs of non-separator characters of the line changed to upper
case (`specTokens`: split at every separator, keep the non-empty pieces), a separator being a
white-space character or a comma; every token is non-empty and contains no white space, no
comma and no lower-case ASCII letter; a line that is empty or made of separators only gives
the empty sequence; and " move ,, report " gives ["MOVE", "REPORT"]. -/
theorem tokenize_reference (line : String) :
    Tokenize line = specTokens line ∧
      (∀ tok ∈ Tokenize line, tok ≠ "" ∧
        ∀ c ∈ tok.toList, isspace c = false ∧ c ≠ ',' ∧ ¬ (97 ≤ c.toNat ∧ c.toNat ≤ 122)) ∧
      ((∀ c ∈ line.toList, isspace c = true ∨ c = ',') → Tokenize line = []) ∧
      Tokenize "" = [] ∧
      Tokenize " move ,, report " = ["MOVE", "REPORT"] := by
  have hmem : ∀ tok ∈ Tokenize line, tok.toList ≠ [] ∧
      ∀ c ∈ tok.toList, Separator c = false ∧ c ∈ line.toList.map toupper :=
    fun tok h => tokenizeLoop_mem _ _ tok h
  refine ⟨Tokenize_eq_specTokens line, fun tok h => ?_, fun hall => ?_, by decide, by decide⟩
  · obtain ⟨hne, hc⟩ := hmem tok h
    refine ⟨fun he => hne (by rw [he]; rfl), fun c hcm => ?_⟩
    obtain ⟨hsep, hin⟩ := hc c hcm
    obtain ⟨c0, -, rfl⟩ := List.mem_map.mp hin
    simp only [Separator, Bool.or_eq_false_iff, beq_eq_false_iff_ne, ne_eq] at hsep
    exact ⟨hsep.1, hsep.2, toupper_not_lower c0⟩
  · rw [List.eq_nil_iff_forall_not_mem]
    intro tok h
    obtain ⟨hne, hc⟩ := hmem tok h
    obtain ⟨c, rest, hcons⟩ := List.exists_cons_of_ne_nil hne
    obtain ⟨hsep, hin⟩ := hc c (by rw [hcons]; exact List.mem_cons_self _ _)
    obtain ⟨c0, hc0, rfl⟩ := List.mem_map.mp hin
    rw [Separator_toupper] at hsep
    have : Separator c0 = true := by
      rcases hall c0 hc0 with h1 | h1
      · simp [Separator, h1]
      · simp [Separator, h1]
    rw [this] at hsep
    exact absurd hsep (by decide)

/-! ## Command reader -/

theorem readCommandLoop_all_empty (lines : List String) :
    ∀ tokens : List String, tokens = [] → (∀ l ∈ lines, Tokenize l = []) →
      readCommandLoop tokens lines = ([], []) := by
  induction lines with
  | nil => intro tokens ht _; rw [ht]; rfl
  | cons line rest ih =>
    intro tokens _ hall
    have hline := hall line (List.mem_cons_self _ _)
    simp only [readCommandLoop, hline, ne_eq, not_true_eq_false, if_false]
    exact ih [] rfl (fun l hl => hall l (List.mem_cons_of_mem _ hl))

theorem readCommandLoop_first (pre : List String) (line : String) (post : List String)
    (hpre : ∀ l ∈ pre, Tokenize l = []) (hline : Tokenize line ≠ []) :
    ∀ tokens : List String,
      readCommandLoop tokens (pre ++ line :: post) = (Tokenize line, post) := by
  induction pre with
  | nil => intro tokens; simp [readCommandLoop, hline]
  | cons p ps ih =>
    intro tokens
    have hp := hpre p (List.mem_cons_self _ _)
    simp only [List.cons_append, readCommandLoop, hp, ne_eq, not_true_eq_false, if_false]
    exact ih (fun l hl => hpre l (List.mem_cons_of_mem _ hl)) []

theorem readCommandLoop_empty_result (lines : List String) :
    ∀ tokens : List String, (readCommandLoop tokens lines).1 = [] →
      ∀ l ∈ lines, Tokenize l = [] := by
  induction lines with
  | nil => intro tokens _ l hl; simp at hl
  | cons line rest ih =>
    intro tokens h l hl
    by_cases hline : Tokenize line = []
    · simp only [readCommandLoop, hline, ne_eq, not_true_eq_false, if_false] at h
      rcases List.mem_cons.mp hl with rfl | hm
      · exact hline
      · exact ih [] h l hm
    · simp only [readCommandLoop, ne_eq, hline, not_false_eq_true, if_true] at h

/-- C15. Command Reader: with the text source a finite list of lines, `ReadCommand` returns
`Tokenize` of the first line whose tokenization is non-empty (the lines `pre` before it all
tokenize to nothing) and leaves in the source exactly the lines `post` after that line; on any
list `lines` it returns the empty sequence if and only if no line has a non-empty
tokenization, and then every line has been consumed. -/
theorem read_command_first_nonempty (pre post lines : List String) (line : String)
    (hpre : ∀ l ∈ pre, Tokenize l = []) (hline : Tokenize line ≠ []) :
    ReadCommand (pre ++ line :: post) = (Tokenize line, post) ∧
      ((ReadCommand lines).1 = [] ↔ ∀ l ∈ lines, Tokenize l = []) ∧
      ((∀ l ∈ lines, Tokenize l = []) → ReadCommand lines = ([], [])) :=
  ⟨readCommandLoop_first pre line post hpre hline [],
    ⟨readCommandLoop_empty_result lines [],
      fun h => by rw [ReadCommand, readCommandLoop_all_empty lines [] rfl h]⟩,
    readCommandLoop_all_empty lines [] rfl⟩

/-- Witness for C15: two blank lines before "move", and a source of blank lines only. -/
theorem read_command_first_nonempty_witness :
    ReadCommand (["", " , "] ++ "move" :: ["report"]) = (Tokenize "move", ["report"]) ∧
      ((ReadCommand ["", ",,"]).1 = [] ↔ ∀ l ∈ ["", ",,"], Tokenize l = []) ∧
      ((∀ l ∈ ["", ",,"], Tokenize l = []) → ReadCommand ["", ",,"] = ([], [])) :=
  read_command_first_nonempty ["", " , "] ["report"] ["", ",,"] "move" (by decide) (by decide)

/-! ## Case of the input -/

theorem Tokenize_upperLine (line : String) : Tokenize (upperLine line) = Tokenize line := by
  have h : (upperLine line).toList.map toupper = line.toList.map toupper := by
    simp only [upperLine, String.toList, List.map_map]
    exact List.map_congr_left (fun c _ => toupper_idem c)
  unfold Tokenize
  simp only [h]

theorem ReadCommand_cons_empty (line : String) (rest : List String)
    (h : Tokenize line = []) : ReadCommand (line :: rest) = ReadCommand rest := by
  simp [ReadCommand, readCommandLoop, h]

theorem ReadCommand_cons_tokens (line : String) (rest : List String)
    (h : Tokenize line ≠ []) : ReadCommand (line :: rest) = (Tokenize line, rest) := by
  simp [ReadCommand, readCommandLoop, h]

/-- With more fuel than there are lines, the program reading lines is the loop over the
non-empty tokenizations of the lines. -/
theorem mainRun_eq_mainLoop (input : List String) :
    ∀ (fuel : Nat) (robot : ToyRobot), input.length < fuel →
      mainRun fuel robot input =
        mainLoop robot ((input.map Tokenize).filter (fun tokens => !tokens.isEmpty)) := by
  induction input with
  | nil =>
    intro fuel robot hf
    obtain ⟨f, rfl⟩ : ∃ f, fuel = f + 1 := ⟨fuel - 1, by simp at hf; omega⟩
    rfl
  | cons line rest ih =>
    intro fuel robot hf
    obtain ⟨f, rfl⟩ : ∃ f, fuel = f + 1 := ⟨fuel - 1, by omega⟩
    have hrest : rest.length < f := by simp only [List.length_cons] at hf; omega
    cases hline : Tokenize line with
    | nil =>
      have h1 := ih (f + 1) robot (by omega)
      have h2 : mainRun (f + 1) robot (line :: rest) = mainRun (f + 1) robot rest := by
        simp only [mainRun, ReadCommand_cons_empty line rest hline]
      rw [h2, h1]
      simp [hline]
    | cons command args =>
      have hne : Tokenize line ≠ [] := by rw [hline]; simp
      have hread := ReadCommand_cons_tokens line rest hne
      rw [hline] at hread
      simp only [mainRun, hread, List.map_cons, hline, List.filter_cons, List.isEmpty_cons,
        Bool.not_false, if_true, mainLoop]
      cases processCommand robot command args with
      | none => rfl
      | some p =>
        obtain ⟨next, out⟩ := p
        simp only [ih f next hrest]

theorem mainProgram_eq_mainLoop (input : List String) :
    mainProgram input =
      mainLoop initialRobot ((input.map Tokenize).filter (fun tokens => !tokens.isEmpty)) :=
  mainRun_eq_mainLoop input _ initialRobot (Nat.lt_succ_self _)

theorem map_Tokenize_of_map_upperLine (input1 input2 : List String)
    (h : input1.map upperLine = input2.map upperLine) :
    input1.map Tokenize = input2.map Tokenize := by
  have e : ∀ input : List String, input.map Tokenize = (input.map upperLine).map Tokenize := by
    intro input
    rw [List.map_map]
    exact List.map_congr_left (fun l _ => (Tokenize_upperLine l).symm)
  rw [e input1, e input2, h]

/-- C16. Case-insensitivity: for every input line, `Tokenize line` equals `Tokenize` of the
line with every ASCII letter in upper case; hence two command streams `input1`, `input2` that
differ only in the case of ASCII letters (they are equal once every line is changed to upper
case) give the same state and the same output after every number `k` of lines, and at the
end. -/
theorem case_insensitive (line : String) (input1 input2 : List String) (k : Nat)
    (h : input1.map upperLine = input2.map upperLine) :
    Tokenize line = Tokenize (upperLine line) ∧
      mainProgram (input1.take k) = mainProgram (input2.take k) ∧
      mainProgram input1 = mainProgram input2 := by
  refine ⟨(Tokenize_upperLine line).symm, ?_, ?_⟩
  · have hk : (input1.take k).map upperLine = (input2.take k).map upperLine := by
      rw [List.map_take, List.map_take, h]
    rw [mainProgram_eq_mainLoop, mainProgram_eq_mainLoop,
      map_Tokenize_of_map_upperLine _ _ hk]
  · rw [mainProgram_eq_mainLoop, mainProgram_eq_mainLoop,
      map_Tokenize_of_map_upperLine _ _ h]

/-- Witness for C16: the same three commands in lower and in mixed case. -/
theorem case_insensitive_witness :
    (Tokenize "Place 1,2,east" = Tokenize (upperLine "Place 1,2,east") ∧
      mainProgram (["place 1,2,east", "left", "report"].take 2) =
        mainProgram (["PLACE 1,2,East", "Left", "rePORT"].take 2) ∧
      mainProgram ["place 1,2,east", "left", "report"] =
        mainProgram ["PLACE 1,2,East", "Left", "rePORT"]) ∧
      mainProgram ["place 1,2,east", "left", "report"] =
        some (ToyRobot.mk 1 2 North, ["1,2,NORTH"]) :=
  ⟨case_insensitive "Place 1,2,east" ["place 1,2,east", "left", "report"]
      ["PLACE 1,2,East", "Left", "rePORT"] 2 (by decide),
    by decide⟩

end ToyRobotModel
